import Mathlib

/-!
# Verification of the StarBattle solver core

Shallow embedding of the solver core of the starbattle-solver repository
(the deduction engine, validator, backtracking solver, region builder and
2x2-cluster partitioner), together with theorems settling the frozen claims
about it.

Conventions of the embedding:
* JavaScript arrays of cells become `List Cell`; an out-of-range read
  (`undefined` in the source) becomes `none` from `l[i]?`, and every
  comparison against a cell value is performed on `Option Cell`, which gives
  the same truth value as the source's `===`/`!==` on `undefined`.
* JavaScript numbers are `Nat` where the source only ever holds naturals and
  `Int` where a subtraction can go negative (`getRemainingStarCount`,
  the under-feasibility check of the validator).
* The source's unbounded loops (the `while (true)` of `applyNextSteps` and
  the recursion of `findSolutionHelper`) take an explicit fuel argument;
  exhausted fuel returns the "nothing found / no solution" value.
* In-place mutation of `puzzleData.cells` is modelled by explicit state
  passing: a function that mutates the array in the source returns the final
  value of the array alongside its result.
-/

/-- Cell states, from types.ts: `BLANK`, `STAR`, `X` (X = marked "no star"). -/
inductive Cell where
  | BLANK
  | STAR
  | X
deriving DecidableEq, Repr

/-- A deduction / validation step, from types.ts.  All fields optional. -/
structure PuzzleStep where
  indices : Option (List Nat) := none
  otherIndices : Option (List Nat) := none
  type : Option Cell := none
  message : Option String := none
deriving DecidableEq, Repr

/-- The puzzle state handed to the engine, from types.ts. -/
structure PuzzleData where
  cells : List Cell
  size : Nat
  starCount : Nat
  rows : List (List Nat)
  columns : List (List Nat)
  groups : List (List Nat)
  cellIndexToGroupIndex : List Nat
deriving Repr

/-- `range(start, stop)` from the source (step 1): the list
`[start, start+1, ..., stop-1]`, empty when `stop ≤ start`. -/
def range (start stop : Nat) : List Nat := List.range' start (stop - start)

/-- `getCoords(i, size)`: `x = i % size`, `y = i / size` (floor). -/
def getCoords (i size : Nat) : Nat × Nat := (i % size, i / size)

/-- `getIndex(x, y, size) = y * size + x`. -/
def getIndex (x y size : Nat) : Nat := y * size + x

/-- `getNeighbouringIndices(size, i)`: the up-to-8 cells around `i`, in the
source's fixed order, clipped to the grid. -/
def getNeighbouringIndices (size i : Nat) : List Nat :=
  let x : Int := (i % size : Nat)
  let y : Int := (i / size : Nat)
  (([(x-1,y-1), (x,y-1), (x+1,y-1), (x-1,y), (x+1,y), (x-1,y+1), (x,y+1), (x+1,y+1)] :
      List (Int × Int)).filter
    (fun p => decide (0 ≤ p.1 ∧ p.1 < (size : Int) ∧ 0 ≤ p.2 ∧ p.2 < (size : Int)))).map
    (fun p => (p.2 * (size : Int) + p.1).toNat)

/-- `getAllNeighbouringIndices(size)`: neighbour table for all `size²` cells. -/
def getAllNeighbouringIndices (size : Nat) : List (List Nat) :=
  (range 0 (size ^ 2)).map (getNeighbouringIndices size)

/-- `getCellCount(group, cells, cellType)`. -/
def getCellCount (group : List Nat) (cells : List Cell) (cellType : Cell) : Nat :=
  (group.filter (fun i => decide (cells[i]? = some cellType))).length

/-- `getStarCount(group, cells)`. -/
def getStarCount (group : List Nat) (cells : List Cell) : Nat :=
  getCellCount group cells Cell.STAR

/-- `getRemainingStarCount(cells, group, starCountPerGroup)`; the result can be
negative in the source, so it is an `Int` here. -/
def getRemainingStarCount (cells : List Cell) (group : List Nat) (starCountPerGroup : Nat) : Int :=
  (starCountPerGroup : Int) - (getStarCount group cells : Int)

/-- `outOfBounds(x, y, xSize, ySize)` (coordinates may be negative).  Named
`outOfBoundsXY` here because Lean already has a declaration `outOfBounds`. -/
def outOfBoundsXY (x y : Int) (xSize ySize : Nat) : Bool :=
  decide (x < 0 ∨ (xSize : Int) ≤ x ∨ y < 0 ∨ (ySize : Int) ≤ y)

/-- `withinSquare(size, i, group)`: `i` is within Chebyshev distance 1 of every
member of `group`. -/
def withinSquare (size i : Nat) (group : List Nat) : Bool :=
  group.all fun index =>
    decide ((((i % size : Nat) : Int) - ((index % size : Nat) : Int)).natAbs ≤ 1 ∧
            (((i / size : Nat) : Int) - ((index / size : Nat) : Int)).natAbs ≤ 1)

/-- One step of `partitionCells`: put `i` into the first partition it is
pairwise-compatible with, else start a new partition at the end. -/
def insertCell (size i : Nat) : List (List Nat) → List (List Nat)
  | [] => [[i]]
  | p :: ps => if withinSquare size i p then (p ++ [i]) :: ps else p :: insertCell size i ps

/-- `partitionCells(size, indices)`: greedy split into 2x2-safe clusters. -/
def partitionCells (size : Nat) (indices : List Nat) : List (List Nat) :=
  indices.foldl (fun parts i => insertCell size i parts) []

/-- The validator's `processTooManyStarsRule`. -/
def processTooManyStarsRule (cells : List Cell) (starCount : Nat)
    (targetGroups : List (List Nat)) (name : String) : Option PuzzleStep :=
  targetGroups.findSome? fun group =>
    if getStarCount group cells > starCount then
      some { indices := some group, message := some s!"This {name} contains too many stars." }
    else none

/-- The validator's `processNotEnoughSpacesRule` (`Int` subtraction as in the
source, where the count difference can be negative). -/
def processNotEnoughSpacesRule (cells : List Cell) (starCount : Nat)
    (targetGroups : List (List Nat)) (name : String) : Option PuzzleStep :=
  targetGroups.findSome? fun group =>
    if ((starCount : Int) - (getStarCount group cells : Int) >
        (getCellCount group cells Cell.BLANK : Int)) then
      some { indices := some group, message := some s!"This {name} contains too few blank spaces." }
    else none

/-- The adjacency scan of `getSolutionError`: first Star cell having a Star
neighbour, paired with that first neighbour. -/
def findAdjacentStars (cells : List Cell) (size : Nat) : Option PuzzleStep :=
  cells.enum.findSome? fun ic =>
    if ic.2 = Cell.STAR then
      match (getNeighbouringIndices size ic.1).find?
          (fun j => decide (cells[j]? = some Cell.STAR)) with
      | some j => some { indices := some [ic.1, j],
                         message := some "Stars cannot be next to each other." }
      | none => none
    else none

/-- `getSolutionError(puzzleData)`: adjacency violation, then too-many-stars
over rows, columns, groups, then too-few-blanks over rows, columns, groups;
otherwise the empty step. -/
def getSolutionError (pd : PuzzleData) : PuzzleStep :=
  match findAdjacentStars pd.cells pd.size with
  | some e => e
  | none =>
  match processTooManyStarsRule pd.cells pd.starCount pd.rows "row" with
  | some e => e
  | none =>
  match processTooManyStarsRule pd.cells pd.starCount pd.columns "column" with
  | some e => e
  | none =>
  match processTooManyStarsRule pd.cells pd.starCount pd.groups "group" with
  | some e => e
  | none =>
  match processNotEnoughSpacesRule pd.cells pd.starCount pd.rows "row" with
  | some e => e
  | none =>
  match processNotEnoughSpacesRule pd.cells pd.starCount pd.columns "column" with
  | some e => e
  | none =>
  match processNotEnoughSpacesRule pd.cells pd.starCount pd.groups "group" with
  | some e => e
  | none => {}

/-- `isSolved(puzzleData)`: no star has a star neighbour, and every row,
column and group holds exactly `starCount` stars. -/
def isSolved (pd : PuzzleData) : Bool :=
  (range 0 pd.cells.length).all (fun i =>
    !(decide (pd.cells[i]? = some Cell.STAR) &&
      ((getNeighbouringIndices pd.size i).find?
        (fun j => decide (pd.cells[j]? = some Cell.STAR))).isSome))
  && pd.rows.all (fun row => decide (getStarCount row pd.cells = pd.starCount))
  && pd.columns.all (fun column => decide (getStarCount column pd.cells = pd.starCount))
  && pd.groups.all (fun group => decide (getStarCount group pd.cells = pd.starCount))

/-- Insertion-order deduplication, the behaviour of the source's
`Array.from(new Set(...))` on a list of numbers. -/
def dedupKeepFirst (l : List Nat) : List Nat :=
  l.foldl (fun acc x => if x ∈ acc then acc else acc ++ [x]) []

/-- `starCanBePlaced(i)` from `getNextStep`: the cell is blank, not next to a
star, and none of its group, row or column is already out of remaining stars. -/
def starCanBePlaced (pd : PuzzleData) (i : Nat) : Bool :=
  decide (pd.cells[i]? = some Cell.BLANK) &&
  !(((getAllNeighbouringIndices pd.size).getD i []).any
      (fun j => decide (pd.cells[j]? = some Cell.STAR))) &&
  !(decide (getRemainingStarCount pd.cells
      (pd.groups.getD (pd.cellIndexToGroupIndex.getD i 0) []) pd.starCount = 0)) &&
  !(decide (getRemainingStarCount pd.cells (pd.rows.getD (i / pd.size) []) pd.starCount = 0)) &&
  !(decide (getRemainingStarCount pd.cells (pd.columns.getD (i % pd.size) []) pd.starCount = 0))

/-- `starsCanBePlaced(indices)`: each index is placeable and no two of them
are neighbours. -/
def starsCanBePlaced (pd : PuzzleData) (indices : List Nat) : Bool :=
  indices.all fun i =>
    starCanBePlaced pd i &&
    !(((getAllNeighbouringIndices pd.size).getD i []).any (fun j => decide (j ∈ indices)))

/-- `getSharedNeighbour(indices)`: cells adjacent to every member. -/
def getSharedNeighbour (size : Nat) : List Nat → List Nat
  | [] => []
  | h :: t => t.foldl
      (fun acc i => acc.filter (fun j => decide (j ∈ getNeighbouringIndices size i)))
      (getNeighbouringIndices size h)

/-- `findNeighbouringGroup(i)`: the first group whose entire blank set lies
inside the neighbourhood of `i`. -/
def findNeighbouringGroup (pd : PuzzleData) (i : Nat) : Option (List Nat) :=
  let nbs := getNeighbouringIndices pd.size i
  pd.groups.findSome? fun group =>
    let g := group.filter (fun k => decide (pd.cells[k]? = some Cell.BLANK))
    if g.isEmpty then none
    else if g.all (fun k => decide (k ∈ nbs)) then some g else none

/-- Inner accumulation of `findSharedGroups`: collect the distinct group
indices of `indices` in encounter order, aborting as soon as more than
`targetCount` have been seen. -/
def findSharedGroupsGo (pd : PuzzleData) (targetCount : Nat) :
    List Nat → List Nat → Option (List Nat)
  | acc, [] => some acc
  | acc, i :: rest =>
    let gi := pd.cellIndexToGroupIndex.getD i 0
    let acc' := if gi ∈ acc then acc else acc ++ [gi]
    if acc'.length > targetCount then none else findSharedGroupsGo pd targetCount acc' rest

/-- `findSharedGroups(indices, targetCount)`. -/
def findSharedGroups (pd : PuzzleData) (indices : List Nat) (targetCount : Nat) :
    Option (List Nat) :=
  findSharedGroupsGo pd targetCount [] indices

/-- `processLastSpacesRule(targetGroups, name)`. -/
def processLastSpacesRule (pd : PuzzleData) (targetGroups : List (List Nat))
    (name : String) : Option PuzzleStep :=
  targetGroups.findSome? fun group =>
    let indices := group.filter (fun k => decide (pd.cells[k]? = some Cell.BLANK))
    if indices.isEmpty then none
    else if !starsCanBePlaced pd indices then none
    else if decide (getRemainingStarCount pd.cells group pd.starCount = (indices.length : Int)) then
      some { indices := some indices, type := some Cell.STAR,
             message := some s!"The remaining stars in this {name} can only be placed here." }
    else none

/-- `processNoStarsLeftRule(targetGroups, name)`. -/
def processNoStarsLeftRule (pd : PuzzleData) (targetGroups : List (List Nat))
    (name : String) : Option PuzzleStep :=
  targetGroups.findSome? fun group =>
    if decide (getRemainingStarCount pd.cells group pd.starCount = 0) then
      let indices := group.filter (fun k => decide (pd.cells[k]? = some Cell.BLANK))
      if indices.isEmpty then none
      else some { indices := some indices, type := some Cell.X,
                  message := some s!"No more stars can be placed in this {name}." }
    else none

/-- The second rule of the battery: every non-X cell around a star gets
marked (the `cells.entries()` loop right after the Last-Spaces calls). -/
def adjacencyRule (pd : PuzzleData) : Option PuzzleStep :=
  pd.cells.enum.findSome? fun ic =>
    if ic.2 = Cell.X then none
    else if ic.2 ≠ Cell.STAR then none
    else
      let indices := (getNeighbouringIndices pd.size ic.1).filter
        (fun j => decide (pd.cells[j]? ≠ some Cell.X))
      if indices.isEmpty then none
      else some { indices := some indices, type := some Cell.X,
                  message := some "Stars cannot be placed in cells neighbouring a star (including diagonals)." }

/-- The fourth rule of the battery: the `findNeighbouringGroup` scan over all
non-X cells (isolated-group exclusion). -/
def isolatedGroupRule (pd : PuzzleData) : Option PuzzleStep :=
  pd.cells.enum.findSome? fun ic =>
    if ic.2 = Cell.X then none
    else
      match findNeighbouringGroup pd ic.1 with
      | none => none
      | some group =>
          some { indices := some [ic.1], otherIndices := some group, type := some Cell.X,
                 message := some "A star cannot be placed here. Otherwise, not enough stars can be placed within this group." }

/-- `processNoCrowdingRule(i, neighbours, relevantGroups, name)`. -/
def processNoCrowdingRule (pd : PuzzleData) (i : Nat) (neighbours : List Nat)
    (relevantGroups : List (List Nat)) (name : String) : Option PuzzleStep :=
  relevantGroups.findSome? fun group =>
    let remainingGroup := group.filter
      (fun k => decide (pd.cells[k]? = some Cell.BLANK) && !(decide (k ∈ neighbours)))
    let parts := partitionCells pd.size remainingGroup
    if decide ((parts.length : Int) ≥ getRemainingStarCount pd.cells group pd.starCount) then none
    else some { indices := some [i], otherIndices := some group, type := some Cell.X,
                message := some s!"A star cannot be placed here. Otherwise the indicated {name} will not have enough room for stars." }

/-- The fifth rule of the battery: for each blank cell, no-crowding over the
groups, rows then columns met by its blank neighbours. -/
def noCrowdingRule (pd : PuzzleData) : Option PuzzleStep :=
  pd.cells.enum.findSome? fun ic =>
    if ic.2 ≠ Cell.BLANK then none
    else
      let neighbours := (getNeighbouringIndices pd.size ic.1).filter
        (fun j => decide (pd.cells[j]? = some Cell.BLANK))
      let relevantGroups := (dedupKeepFirst (neighbours.map
          (fun j => pd.cellIndexToGroupIndex.getD j 0))).map (fun k => pd.groups.getD k [])
      match processNoCrowdingRule pd ic.1 neighbours relevantGroups "group" with
      | some s => some s
      | none =>
      let relevantRows := (dedupKeepFirst (neighbours.map (fun j => j / pd.size))).map
        (fun k => pd.rows.getD k [])
      match processNoCrowdingRule pd ic.1 neighbours relevantRows "row" with
      | some s => some s
      | none =>
      let relevantColumns := (dedupKeepFirst (neighbours.map (fun j => j % pd.size))).map
        (fun k => pd.columns.getD k [])
      processNoCrowdingRule pd ic.1 neighbours relevantColumns "column"

/-- `addConfirmedPartition(partitionToAdd)` acting on the accumulator list. -/
def addConfirmedPartition (cps : List (List Nat)) (partitionToAdd : List Nat) :
    List (List Nat) :=
  match cps.findIdx? (fun p => p.length ≤ partitionToAdd.length &&
      p.all (fun k => decide (k ∈ partitionToAdd))) with
  | some _ => cps
  | none =>
    match cps.findIdx? (fun p => p.length > partitionToAdd.length &&
        partitionToAdd.all (fun k => decide (k ∈ p))) with
    | some k => cps.set k partitionToAdd
    | none => cps ++ [partitionToAdd]

/-- The explanatory prefix built by `processBlockRule`.  The source builds it
from a multi-line template literal and strips only the newline characters;
here the text is normalised to single spaces, which no claim depends on. -/
def blockBaseMessage (name : String) (multipleGroup : Bool) (remainingStarCount : Int) : String :=
  let thisOrThese := if multipleGroup then "these" else "this"
  let plural := if multipleGroup then "s" else ""
  let isOrAre := if remainingStarCount > 1 then "are" else "is"
  let blockPlural := if remainingStarCount > 1 then "s" else ""
  s!"There can be at most 1 star in each 2x2 block. When the remaining space within {thisOrThese} {name}{plural} is split into blocks at most 2x2 in size, there {isOrAre} only {remainingStarCount} block{blockPlural}, which is equal to the number of remaining stars. Therefore, each block must contain a star."

/-- The per-partition action loop at the end of `processBlockRule`'s body:
star a placeable singleton cluster, else mark the non-X shared neighbours of
the first cluster that has any. -/
def blockAction (pd : PuzzleData) (target blankGroup : List Nat) (baseMessage : String) :
    List (List Nat) → Option PuzzleStep
  | [] => none
  | partition :: rest =>
    if partition.length = 1 && starCanBePlaced pd (partition.headD 0) then
      some { indices := some partition, otherIndices := some target, type := some Cell.STAR,
             message := some (baseMessage ++ " This block only has one space, so it must be a star.") }
    else
      let indices := (getSharedNeighbour pd.size partition).filter
        (fun k => decide (pd.cells[k]? ≠ some Cell.X))
      if indices.isEmpty then blockAction pd target blankGroup baseMessage rest
      else some { indices := some indices, otherIndices := some blankGroup, type := some Cell.X,
                  message := some (baseMessage ++ " If stars are placed here, there will be no place to put a star in this block.") }

/-- `processBlockRule(targets, name, starCountPerTarget)`.  Returns the step
(if any) together with the updated `confirmedPartitions` accumulator, which
the source keeps as mutable state shared with `processConfirmedBlockRule`. -/
def processBlockRule (pd : PuzzleData) (cps : List (List Nat)) (targets : List (List Nat))
    (name : String) (starCountPerTarget : Nat) : Option PuzzleStep × List (List Nat) :=
  match targets with
  | [] => (none, cps)
  | target :: rest =>
    let blankGroup := target.filter (fun k => decide (pd.cells[k]? = some Cell.BLANK))
    let parts := partitionCells pd.size blankGroup
    let remainingStarCount := getRemainingStarCount pd.cells target starCountPerTarget
    if decide ((parts.length : Int) ≠ remainingStarCount) then
      processBlockRule pd cps rest name starCountPerTarget
    else
      let cps' := parts.foldl addConfirmedPartition cps
      let baseMessage := blockBaseMessage name (starCountPerTarget > pd.starCount) remainingStarCount
      match blockAction pd target blankGroup baseMessage parts with
      | some s => (some s, cps')
      | none => processBlockRule pd cps' rest name starCountPerTarget

/-- `processGroupsFillLinesRule(lines, name)`. -/
def processGroupsFillLinesRule (pd : PuzzleData) (lines : List (List Nat))
    (name : String) : Option PuzzleStep :=
  let lineIndices := lines.flatten.filter (fun k => decide (pd.cells[k]? ≠ some Cell.X))
  match findSharedGroups pd lineIndices lines.length with
  | none => none
  | some groupIndices =>
    let indices := (groupIndices.map (fun gi => pd.groups.getD gi [])).flatten.filter
      (fun k => !(decide (k ∈ lineIndices)) && decide (pd.cells[k]? ≠ some Cell.X))
    if indices.isEmpty then none
    else
      let groupsText := if lines.length > 1 then "these groups" else "this group"
      let linesText : String := if lines.length > 1 then s!"these {name}s" else s!"this {name}"
      some { indices := some indices, otherIndices := some lineIndices, type := some Cell.X,
             message := some s!"Stars cannot be placed in {groupsText} outside {linesText}. Otherwise, there will not be enough stars in {linesText}." }

/-- The source's fill-lines double loop: for each window height
`lineCount = 1 .. size-1` and each start, the row window then the column
window of that start. -/
def fillLinesRule (pd : PuzzleData) : Option PuzzleStep :=
  (range 1 pd.size).findSome? fun lineCount =>
    (range 0 (pd.size - lineCount + 1)).findSome? fun start =>
      match processGroupsFillLinesRule pd ((pd.rows.drop start).take lineCount) "row" with
      | some s => some s
      | none => processGroupsFillLinesRule pd ((pd.columns.drop start).take lineCount) "column"

/-- `processConfirmedBlockRule(groups, name, starCountPerGroup)`. -/
def processConfirmedBlockRule (pd : PuzzleData) (cps : List (List Nat))
    (targets : List (List Nat)) (name : String) (starCountPerGroup : Nat) : Option PuzzleStep :=
  targets.findSome? fun group =>
    if decide (getRemainingStarCount pd.cells group starCountPerGroup ≠ 1) then none
    else
      let blankGroup := group.filter (fun k => decide (pd.cells[k]? = some Cell.BLANK))
      match cps.find? (fun p => p.all (fun k => decide (k ∈ group))) with
      | none => none
      | some confirmed =>
        let indices := blankGroup.filter (fun k => !(decide (k ∈ confirmed)))
        if indices.isEmpty then none
        else
          let thisOrThese := if starCountPerGroup > pd.starCount then "these" else "this"
          let plural := if starCountPerGroup > pd.starCount then "s" else ""
          some { indices := some indices, otherIndices := some blankGroup, type := some Cell.X,
                 message := some s!"There can be at most 1 star in each 2x2 block. The indicated block is confirmed to have a star from splitting some columns, rows, or groups into blocks, so we can exclude the spaces within {thisOrThese} {name}{plural} outside the block ." }

/-- `twoRowGroups`: the flattened sliding windows of two adjacent rows
(`range(0, size - 2 + 1)` in the source, which is `range 0 (size - 1)` over
naturals). -/
def twoRowGroups (pd : PuzzleData) : List (List Nat) :=
  (range 0 (pd.size - 1)).map (fun start => ((pd.rows.drop start).take 2).flatten)

/-- `twoColumnGroups`: the flattened sliding windows of two adjacent columns. -/
def twoColumnGroups (pd : PuzzleData) : List (List Nat) :=
  (range 0 (pd.size - 1)).map (fun start => ((pd.columns.drop start).take 2).flatten)

/-- The fallback step `{message: 'Unknown'}`. -/
def unknownStep : PuzzleStep := { message := some "Unknown" }

/-- The full ordered rule battery of `getNextStep` (the `maxGuesses = 0`
path, which is the default), returning `none` when no rule applies. -/
def ruleBattery (pd : PuzzleData) : Option PuzzleStep :=
  match processLastSpacesRule pd pd.groups "group" with
  | some s => some s
  | none =>
  match processLastSpacesRule pd pd.rows "row" with
  | some s => some s
  | none =>
  match processLastSpacesRule pd pd.columns "column" with
  | some s => some s
  | none =>
  match adjacencyRule pd with
  | some s => some s
  | none =>
  match processNoStarsLeftRule pd pd.groups "group" with
  | some s => some s
  | none =>
  match processNoStarsLeftRule pd pd.rows "row" with
  | some s => some s
  | none =>
  match processNoStarsLeftRule pd pd.columns "column" with
  | some s => some s
  | none =>
  match isolatedGroupRule pd with
  | some s => some s
  | none =>
  match noCrowdingRule pd with
  | some s => some s
  | none =>
  let b1 := processBlockRule pd [] pd.groups "group" pd.starCount
  match b1.1 with
  | some s => some s
  | none =>
  let b2 := processBlockRule pd b1.2 pd.rows "row" pd.starCount
  match b2.1 with
  | some s => some s
  | none =>
  let b3 := processBlockRule pd b2.2 pd.columns "column" pd.starCount
  match b3.1 with
  | some s => some s
  | none =>
  match fillLinesRule pd with
  | some s => some s
  | none =>
  let b4 := processBlockRule pd b3.2 (twoRowGroups pd) "row" (2 * pd.starCount)
  match b4.1 with
  | some s => some s
  | none =>
  let b5 := processBlockRule pd b4.2 (twoColumnGroups pd) "column" (2 * pd.starCount)
  match b5.1 with
  | some s => some s
  | none =>
  match processConfirmedBlockRule pd b5.2 (twoRowGroups pd) "row" (2 * pd.starCount) with
  | some s => some s
  | none =>
  match processConfirmedBlockRule pd b5.2 (twoColumnGroups pd) "column" (2 * pd.starCount) with
  | some s => some s
  | none =>
  processConfirmedBlockRule pd b5.2 pd.groups "group" (2 * pd.starCount)

/-- `getNextStep(puzzleData)` with the default `maxGuesses = 0`: the first
applicable rule's step, else the Unknown fallback. -/
def getNextStep (pd : PuzzleData) : PuzzleStep :=
  match ruleBattery pd with
  | some s => s
  | none => unknownStep

/-- `applyNextStep(cells, nextStep, inPlace)`: `none` when the step has no
indices, empty indices, or no type; otherwise the cells with the step's type
written at the step's indices.  The source's `inPlace` flag only controls
array aliasing, which has no observable counterpart in value semantics. -/
def applyNextStep (cells : List Cell) (nextStep : PuzzleStep) : Option (List Cell) :=
  match nextStep.indices, nextStep.type with
  | some indices, some ty =>
    if indices.isEmpty then none
    else some (indices.foldl (fun cs k => cs.set k ty) cells)
  | _, _ => none

/-- The `while (true)` loop of `applyNextSteps`, parametrised by the
`getNextStep` variant in use (`next` returns the step and the final value of
`puzzleData.cells` after the call, since the lookahead mode of `getNextStep`
temporarily writes to it).  The loop body applies the step in place and stops
either when the step carries nothing to apply (result `none` = logic
exhausted) or when the validator reports an error (result `some error`).
`applyNextSteps` itself works on a private copy of the caller's cells and
restores `puzzleData.cells` before returning, so only the error result
escapes. -/
def applyNextStepsF (next : PuzzleData → PuzzleStep × List Cell) :
    Nat → PuzzleData → Option PuzzleStep
  | 0, _ => none
  | fuel+1, pd =>
    let sc := next pd
    match applyNextStep sc.2 sc.1 with
    | none => none
    | some newCells =>
      let error := getSolutionError { pd with cells := newCells }
      if error.message.isSome then some error
      else applyNextStepsF next fuel { pd with cells := newCells }

/-- `applyNextSteps(puzzleData)` with the default `maxGuesses = 0`, i.e. the
loop driven by the pure rule battery. -/
def applyNextStepsPure (dfuel : Nat) (pd : PuzzleData) : Option PuzzleStep :=
  applyNextStepsF (fun q => (getNextStep q, q.cells)) dfuel pd

/-- The step returned by the lookahead mode of `getNextStep`. -/
def lookaheadStep (i : Nat) : PuzzleStep :=
  { indices := some [i], type := some Cell.X,
    message := some "A star cannot be placed here. Otherwise, a rule violation will eventually occur." }

/-- The lookahead loop of `getNextStep` (`maxGuesses > 0`): for each blank
cell in index order, tentatively write a star there, run `applyNextSteps`
with one guess fewer, undo the write, and if the speculation errored return
the exclusion step.  The loop mutates `puzzleData.cells` and restores it, so
the state is threaded explicitly; the final cell list is returned alongside
the step.  The counter `n` only bounds the remaining loop iterations (calling
with `n = cur.length` covers every index, so it is not a truncation). -/
def lookaheadLoop (check : PuzzleData → Option PuzzleStep) (pd : PuzzleData) :
    Nat → List Cell → Nat → PuzzleStep × List Cell
  | 0, cur, _ => (unknownStep, cur)
  | n+1, cur, i =>
    if i < cur.length then
      if decide (cur[i]? = some Cell.BLANK) then
        let cur1 := cur.set i Cell.STAR
        let err := check { pd with cells := cur1 }
        let cur2 := cur1.set i Cell.BLANK
        if err.isSome then (lookaheadStep i, cur2)
        else lookaheadLoop check pd n cur2 (i+1)
      else lookaheadLoop check pd n cur (i+1)
    else (unknownStep, cur)

/-- `getNextStep(puzzleData, maxGuesses)` with its state effect: the returned
step together with the final value of `puzzleData.cells`.  For
`maxGuesses = 0` this is the pure battery; for `maxGuesses + 1` a failed
battery falls through to the lookahead loop, whose speculative
`applyNextSteps` runs with `maxGuesses` and fuel `dfuel`. -/
def getNextStepGo (dfuel : Nat) : Nat → PuzzleData → PuzzleStep × List Cell
  | 0, pd => (getNextStep pd, pd.cells)
  | mg+1, pd =>
    match ruleBattery pd with
    | some s => (s, pd.cells)
    | none =>
      lookaheadLoop (fun q => applyNextStepsF (fun r => getNextStepGo dfuel mg r) dfuel q)
        pd pd.cells.length pd.cells 0

/-- `pastUnfinishedGroup(cutoff, groups, cells, starCount)`: some group whose
star count differs from `starCount` has its last listed member index below
`cutoff`.  (An empty group is skipped: in the source `group[-1] < cutoff`
compares `undefined` and is false.) -/
def pastUnfinishedGroup (cutoff : Nat) (groups : List (List Nat)) (cells : List Cell)
    (starCount : Nat) : Bool :=
  groups.any fun group =>
    !(decide (getStarCount group cells = starCount)) &&
    (match group.getLast? with
     | some l => decide (l < cutoff)
     | none => false)

/-- The guess-and-check loop of `findSolutionHelper` (lines 109-136 of the
source): scan cells from `i` upward, abort the branch on
`pastUnfinishedGroup`, skip non-blank cells, cells next to a star and cells
whose group, row or column is already full; otherwise star the cell and
recurse via `recur`; on failure restore, mark the cell `X`, re-run the logic
check and continue scanning.  `recur cells start` stands for the recursive
`findSolutionHelper(start)` call on the mutated state; the counter `n` only
bounds the remaining iterations (`n = cells.length` covers the whole scan). -/
def guessLoop (pd0 : PuzzleData) (dfuel : Nat)
    (recur : List Cell → Nat → Option (List Cell)) :
    Nat → List Cell → Nat → Option (List Cell)
  | 0, _, _ => none
  | n+1, cells, i =>
    if i < cells.length then
      if pastUnfinishedGroup i pd0.groups cells pd0.starCount then none
      else if !(decide (cells[i]? = some Cell.BLANK)) then guessLoop pd0 dfuel recur n cells (i+1)
      else if ((getNeighbouringIndices pd0.size i).find?
          (fun j => decide (cells[j]? = some Cell.STAR))).isSome then
        guessLoop pd0 dfuel recur n cells (i+1)
      else if decide (getStarCount (pd0.groups.getD (pd0.cellIndexToGroupIndex.getD i 0) [])
          cells = pd0.starCount) then
        guessLoop pd0 dfuel recur n cells (i+1)
      else if decide (getStarCount (pd0.rows.getD (i / pd0.size) []) cells = pd0.starCount) then
        guessLoop pd0 dfuel recur n cells (i+1)
      else if decide (getStarCount (pd0.columns.getD (i % pd0.size) []) cells = pd0.starCount) then
        guessLoop pd0 dfuel recur n cells (i+1)
      else
        match recur (cells.set i Cell.STAR) (i+1) with
        | some res => some res
        | none =>
          let cellsX := cells.set i Cell.X
          if (applyNextStepsPure dfuel { pd0 with cells := cellsX }).isSome then none
          else guessLoop pd0 dfuel recur n cellsX (i+1)
    else none

/-- `findSolutionHelper(startIndex)`: early abort on `pastUnfinishedGroup`,
abort when the logic check errors, succeed when the current cells are solved,
else guess and check.  `fuel` bounds the recursion depth (the source's
recursion is bounded by the cell count); exhausted fuel reports no solution. -/
def findSolutionHelper : Nat → PuzzleData → Nat → Nat → Option (List Cell)
  | 0, _, _, _ => none
  | fuel+1, pd, dfuel, startIndex =>
    if pastUnfinishedGroup startIndex pd.groups pd.cells pd.starCount then none
    else if (applyNextStepsPure dfuel pd).isSome then none
    else if isSolved pd then some pd.cells
    else guessLoop pd dfuel
      (fun cells start => findSolutionHelper fuel { pd with cells := cells } dfuel start)
      pd.cells.length pd.cells startIndex

/-- `findSolution(puzzleData)`: run the helper from index 0 on a private copy
of the cells.  Cloning is invisible in value semantics, so this is the
helper from the caller's cells. -/
def findSolution (fuel : Nat) (pd : PuzzleData) (dfuel : Nat) : Option (List Cell) :=
  findSolutionHelper fuel pd dfuel 0

/-- `findSolution` with its state effect on `puzzleData.cells`: the source
saves `backup = puzzleData.cells`, replaces the field by a clone, searches on
the clone, and writes `backup` back before returning; the second component is
the value of `puzzleData.cells` at return. -/
def findSolutionM (fuel : Nat) (pd : PuzzleData) (dfuel : Nat) :
    Option (List Cell) × List Cell :=
  let backup := pd.cells
  (findSolutionHelper fuel { pd with cells := backup } dfuel 0, backup)

/-- State of the region builder: the live groups in creation order (each a
fresh identifier paired with its member list, standing for the array objects
held in the source's `groupsSet`), the `indexToGroup` map (cell index to the
identifier of its owning group object), and the next fresh identifier. -/
structure GroupState where
  gs : List (Nat × List Nat)
  idx : Nat → Option Nat
  nid : Nat

/-- `setGroup(index, group)`: push `index` onto the member list of the group
with identifier `g` and point `indexToGroup` at it. -/
def setGroup (s : GroupState) (i g : Nat) : GroupState :=
  { s with
    gs := s.gs.map (fun p => if p.1 = g then (p.1, p.2 ++ [i]) else p),
    idx := fun j => if j = i then some g else s.idx j }

/-- Member list of the group with identifier `g` (empty if `g` is not live). -/
def membersOf (s : GroupState) (g : Nat) : List Nat :=
  ((s.gs.find? (fun p => p.1 = g)).map Prod.snd).getD []

/-- `updateNeighbour(currIndex, neighbourIndex)`: if the neighbour has no
group, put it in the current cell's group; if it has a different group,
move every member of that group into the current cell's group and delete it. -/
def updateNeighbour (s : GroupState) (curr nb : Nat) : GroupState :=
  match s.idx curr with
  | none => s
  | some gc =>
    match s.idx nb with
    | none => setGroup s nb gc
    | some gn =>
      if gc = gn then s
      else
        let m := membersOf s gn
        let s' := m.foldl (fun t j => setGroup t j gc) s
        { s' with gs := s'.gs.filter (fun p => decide (p.1 ≠ gn)) }

/-- The body of `makeGroups`' main loop for cell `i`: create a singleton
group when `i` has none, then union with the right and down neighbours when
no wall separates them.  `hw`/`vw` are the flat horizontal/vertical wall
arrays (an out-of-range read is `false`, as in the source's guards). -/
def makeGroupsStep (size : Nat) (hw vw : List Bool) (s : GroupState) (i : Nat) : GroupState :=
  let s1 := match s.idx i with
    | some _ => s
    | none => setGroup { s with gs := s.gs ++ [(s.nid, [])], nid := s.nid + 1 } i s.nid
  let x := i % size
  let y := i / size
  let s2 := if x < size - 1 && !(vw.getD (getIndex x y (size - 1)) false) then
      updateNeighbour s1 i (getIndex (x + 1) y size)
    else s1
  if y < size - 1 && !(hw.getD (getIndex x y size) false) then
    updateNeighbour s2 i (getIndex x (y + 1) size)
  else s2

/-- `makeGroups()` from the grid component: connected components of the
wall graph.  Returns the member lists in creation order and, for every cell,
the position of its group in the returned list (`groups.indexOf`, modelled by
`findIdx`). -/
def makeGroups (size : Nat) (hw vw : List Bool) : List (List Nat) × List Nat :=
  let n := size * size
  let s := (List.range n).foldl (makeGroupsStep size hw vw) ⟨[], fun _ => none, 0⟩
  (s.gs.map Prod.snd,
   (List.range n).map (fun i => s.gs.findIdx (fun p => decide (some p.1 = s.idx i))))

/-- The fill-lines pass in the order stated by the specification sentence
"Fill-Lines (sliding windows of N adjacent rows, then N adjacent columns,
for N = 1..size)": for each window height `N = 1 .. size`, all row windows
first, then all column windows.  (The source instead interleaves the row and
the column window of each start, and stops at `N = size - 1`.) -/
def fillLinesClaimed (pd : PuzzleData) : Option PuzzleStep :=
  (range 1 (pd.size + 1)).findSome? fun lineCount =>
    match (range 0 (pd.size - lineCount + 1)).findSome? (fun start =>
        processGroupsFillLinesRule pd ((pd.rows.drop start).take lineCount) "row") with
    | some s => some s
    | none => (range 0 (pd.size - lineCount + 1)).findSome? (fun start =>
        processGroupsFillLinesRule pd ((pd.columns.drop start).take lineCount) "column")

/-- `getNextStep` in the priority order asserted by claim C1 (and spec item
6/7): the same rules as the source, but with the Block-Exact-Fit passes over
sliding 2-row and 2-column windows placed before Fill-Lines, and Fill-Lines
enumerated rows-then-columns for N = 1..size. -/
def getNextStepClaimed (pd : PuzzleData) : PuzzleStep :=
  let battery :=
    match processLastSpacesRule pd pd.groups "group" with
    | some s => some s
    | none =>
    match processLastSpacesRule pd pd.rows "row" with
    | some s => some s
    | none =>
    match processLastSpacesRule pd pd.columns "column" with
    | some s => some s
    | none =>
    match adjacencyRule pd with
    | some s => some s
    | none =>
    match processNoStarsLeftRule pd pd.groups "group" with
    | some s => some s
    | none =>
    match processNoStarsLeftRule pd pd.rows "row" with
    | some s => some s
    | none =>
    match processNoStarsLeftRule pd pd.columns "column" with
    | some s => some s
    | none =>
    match isolatedGroupRule pd with
    | some s => some s
    | none =>
    match noCrowdingRule pd with
    | some s => some s
    | none =>
    let b1 := processBlockRule pd [] pd.groups "group" pd.starCount
    match b1.1 with
    | some s => some s
    | none =>
    let b2 := processBlockRule pd b1.2 pd.rows "row" pd.starCount
    match b2.1 with
    | some s => some s
    | none =>
    let b3 := processBlockRule pd b2.2 pd.columns "column" pd.starCount
    match b3.1 with
    | some s => some s
    | none =>
    let b4 := processBlockRule pd b3.2 (twoRowGroups pd) "row" (2 * pd.starCount)
    match b4.1 with
    | some s => some s
    | none =>
    let b5 := processBlockRule pd b4.2 (twoColumnGroups pd) "column" (2 * pd.starCount)
    match b5.1 with
    | some s => some s
    | none =>
    match fillLinesClaimed pd with
    | some s => some s
    | none =>
    match processConfirmedBlockRule pd b5.2 (twoRowGroups pd) "row" (2 * pd.starCount) with
    | some s => some s
    | none =>
    match processConfirmedBlockRule pd b5.2 (twoColumnGroups pd) "column" (2 * pd.starCount) with
    | some s => some s
    | none =>
    processConfirmedBlockRule pd b5.2 pd.groups "group" (2 * pd.starCount)
  match battery with
  | some s => s
  | none => unknownStep

/-- The ordered list of rule applications actually performed by
`getNextStep` (default mode), each entry being one rule's result, with the
confirmed-partition accumulator threaded through the Block-Exact-Fit passes
exactly as in the source. -/
def ruleSequence (pd : PuzzleData) : List (Option PuzzleStep) :=
  let b1 := processBlockRule pd [] pd.groups "group" pd.starCount
  let b2 := processBlockRule pd b1.2 pd.rows "row" pd.starCount
  let b3 := processBlockRule pd b2.2 pd.columns "column" pd.starCount
  let b4 := processBlockRule pd b3.2 (twoRowGroups pd) "row" (2 * pd.starCount)
  let b5 := processBlockRule pd b4.2 (twoColumnGroups pd) "column" (2 * pd.starCount)
  [processLastSpacesRule pd pd.groups "group",
   processLastSpacesRule pd pd.rows "row",
   processLastSpacesRule pd pd.columns "column",
   adjacencyRule pd,
   processNoStarsLeftRule pd pd.groups "group",
   processNoStarsLeftRule pd pd.rows "row",
   processNoStarsLeftRule pd pd.columns "column",
   isolatedGroupRule pd,
   noCrowdingRule pd,
   b1.1, b2.1, b3.1,
   fillLinesRule pd,
   b4.1, b5.1,
   processConfirmedBlockRule pd b5.2 (twoRowGroups pd) "row" (2 * pd.starCount),
   processConfirmedBlockRule pd b5.2 (twoColumnGroups pd) "column" (2 * pd.starCount),
   processConfirmedBlockRule pd b5.2 pd.groups "group" (2 * pd.starCount)]

/-- The validator contract as worded in claim C3, as a second definition to
compare with the source's `getSolutionError`: one ordered scan over a single
list of labelled partitions (rows, then columns, then groups) per check
stage.  Where the claim says "some" cell or partition, the first one in scan
order is meant (the function is deterministic). -/
def getSolutionErrorSpec (pd : PuzzleData) : PuzzleStep :=
  let labelled := pd.rows.map (fun r => (r, "row")) ++
                  pd.columns.map (fun c => (c, "column")) ++
                  pd.groups.map (fun g => (g, "group"))
  match findAdjacentStars pd.cells pd.size with
  | some e => e
  | none =>
  match labelled.findSome? (fun pn =>
      if getStarCount pn.1 pd.cells > pd.starCount then
        some ({ indices := some pn.1,
                message := some s!"This {pn.2} contains too many stars." } : PuzzleStep)
      else none) with
  | some e => e
  | none =>
  match labelled.findSome? (fun pn =>
      if ((pd.starCount : Int) - (getStarCount pn.1 pd.cells : Int) >
          (getCellCount pn.1 pd.cells Cell.BLANK : Int)) then
        some ({ indices := some pn.1,
                message := some s!"This {pn.2} contains too few blank spaces." } : PuzzleStep)
      else none) with
  | some e => e
  | none => {}

/-- The abort condition asserted by claim C5: some nonempty partition (row,
column or group) all of whose member indices lie below the cursor still has
fewer than `starCount` stars. -/
def pastUnfinishedPartitionClaimed (cutoff : Nat) (pd : PuzzleData) (cells : List Cell) : Bool :=
  (pd.rows ++ pd.columns ++ pd.groups).any fun p =>
    !p.isEmpty && p.all (fun k => decide (k < cutoff)) &&
    decide (getStarCount p cells < pd.starCount)

/-- The standard row index sets of a `size` × `size` grid. -/
def standardRows (size : Nat) : List (List Nat) :=
  (range 0 size).map (fun y => range (y * size) (y * size + size))

/-- The standard column index sets of a `size` × `size` grid. -/
def standardColumns (size : Nat) : List (List Nat) :=
  (range 0 size).map (fun x => (range 0 size).map (fun y => y * size + x))

/-! ## Concrete fixtures used by the claim theorems -/

/-- A 5×5, 1-star state exercising the rule priorities: rows 1 and 4 fully
marked, row 3 blank only at its ends, the rest blank. -/
def cexCells : List Cell :=
  [Cell.BLANK, Cell.BLANK, Cell.BLANK, Cell.BLANK, Cell.BLANK,
   Cell.X, Cell.X, Cell.X, Cell.X, Cell.X,
   Cell.BLANK, Cell.BLANK, Cell.BLANK, Cell.BLANK, Cell.BLANK,
   Cell.BLANK, Cell.X, Cell.X, Cell.X, Cell.BLANK,
   Cell.X, Cell.X, Cell.X, Cell.X, Cell.X]

/-- The state built on `cexCells`, with a cross-shaped group hugging column 0
and row 2, a top group, a column-4 group and a bottom group. -/
def cexState : PuzzleData :=
  { cells := cexCells, size := 5, starCount := 1,
    rows := standardRows 5, columns := standardColumns 5,
    groups := [[0, 5, 10, 11, 12, 13, 15, 20],
               [1, 2, 3, 6, 7, 8],
               [4, 9, 14, 19, 24],
               [16, 17, 18, 21, 22, 23]],
    cellIndexToGroupIndex := [0, 1, 1, 1, 2, 0, 1, 1, 1, 2, 0, 0, 0, 0, 2, 0, 3, 3, 3, 2, 0, 3, 3, 3, 2] }

/-- A 2×2 state with two adjacent pre-placed stars (top row groups / bands of
two rows,  used to witness claim C4). -/
def adjacentStarsState : PuzzleData :=
  { cells := [Cell.STAR, Cell.STAR, Cell.BLANK, Cell.BLANK], size := 2, starCount := 1,
    rows := standardRows 2, columns := standardColumns 2,
    groups := standardRows 2, cellIndexToGroupIndex := [0, 0, 1, 1] }

/-- A 2×2 all-blank state whose single group covers the whole grid (used for
claim C5: at cursor 2 its first row lies entirely below the cursor and lacks
its star, but no group does). -/
def flatState : PuzzleData :=
  { cells := [Cell.BLANK, Cell.BLANK, Cell.BLANK, Cell.BLANK], size := 2, starCount := 1,
    rows := standardRows 2, columns := standardColumns 2,
    groups := [[0, 1, 2, 3]], cellIndexToGroupIndex := [0, 0, 0, 0] }

/-! ## Claim C1 — rule priority order of `getNextStep` -/

/-- Counterexample to claim C1: on `cexState` the engine returns the
Fill-Lines step for column 0 (mark cells 11, 12, 13 of the cross group),
because the source tries Fill-Lines before the sliding 2-row/2-column
Block-Exact-Fit passes; in the order asserted by the claim the 2-row window
of rows 3-4 would fire first and return a Star step at cell 15. -/
theorem C1_counterexample : getNextStep cexState ≠ getNextStepClaimed cexState := by
  decide

/-- Claim C1 as amended: `getNextStep` returns the first non-empty step of
the rule sequence in the source's order — Last-Spaces (groups, rows,
columns), Adjacency-Exclusion, No-Stars-Left, Isolated-Group-Exclusion,
No-Crowding, Block-Exact-Fit over groups, rows, columns, then Fill-Lines
(N = 1..size-1, row window then column window per start), then
Block-Exact-Fit over sliding 2-row and 2-column windows, then
Confirmed-Block-Exclusion, then the Unknown fallback. -/
theorem C1_rule_order (pd : PuzzleData) :
    getNextStep pd = ((ruleSequence pd).findSome? id).getD unknownStep := by
  unfold getNextStep ruleBattery ruleSequence
  rcases hb1 : processBlockRule pd [] pd.groups "group" pd.starCount with ⟨r1, c1⟩
  rcases hb2 : processBlockRule pd c1 pd.rows "row" pd.starCount with ⟨r2, c2⟩
  rcases hb3 : processBlockRule pd c2 pd.columns "column" pd.starCount with ⟨r3, c3⟩
  rcases hb4 : processBlockRule pd c3 (twoRowGroups pd) "row" (2 * pd.starCount) with ⟨r4, c4⟩
  rcases hb5 : processBlockRule pd c4 (twoColumnGroups pd) "column" (2 * pd.starCount) with ⟨r5, c5⟩
  simp only [hb1, hb2, hb3, hb4, hb5]
  cases processLastSpacesRule pd pd.groups "group" with
  | some s => rfl
  | none =>
  cases processLastSpacesRule pd pd.rows "row" with
  | some s => rfl
  | none =>
  cases processLastSpacesRule pd pd.columns "column" with
  | some s => rfl
  | none =>
  cases adjacencyRule pd with
  | some s => rfl
  | none =>
  cases processNoStarsLeftRule pd pd.groups "group" with
  | some s => rfl
  | none =>
  cases processNoStarsLeftRule pd pd.rows "row" with
  | some s => rfl
  | none =>
  cases processNoStarsLeftRule pd pd.columns "column" with
  | some s => rfl
  | none =>
  cases isolatedGroupRule pd with
  | some s => rfl
  | none =>
  cases noCrowdingRule pd with
  | some s => rfl
  | none =>
  cases r1 with
  | some s => rfl
  | none =>
  cases r2 with
  | some s => rfl
  | none =>
  cases r3 with
  | some s => rfl
  | none =>
  cases fillLinesRule pd with
  | some s => rfl
  | none =>
  cases r4 with
  | some s => rfl
  | none =>
  cases r5 with
  | some s => rfl
  | none =>
  cases processConfirmedBlockRule pd c5 (twoRowGroups pd) "row" (2 * pd.starCount) with
  | some s => rfl
  | none =>
  cases processConfirmedBlockRule pd c5 (twoColumnGroups pd) "column" (2 * pd.starCount) with
  | some s => rfl
  | none =>
  cases processConfirmedBlockRule pd c5 pd.groups "group" (2 * pd.starCount) with
  | some s => rfl
  | none => rfl

/-! ## Claim C8 - the 2x2-cluster partitioner -/


/-- Chebyshev-adjacency (|Δx| ≤ 1 and |Δy| ≤ 1) of two cell indices. -/
def cellsCompat (size a b : Nat) : Prop :=
  (((a % size : Nat) : Int) - ((b % size : Nat) : Int)).natAbs ≤ 1 ∧
  (((a / size : Nat) : Int) - ((b / size : Nat) : Int)).natAbs ≤ 1

theorem cellsCompat_refl (size a : Nat) : cellsCompat size a a := by
  unfold cellsCompat; omega

theorem cellsCompat_symm (size : Nat) {a b : Nat} (h : cellsCompat size a b) :
    cellsCompat size b a := by
  unfold cellsCompat at h ⊢; omega

theorem withinSquare_iff (size i : Nat) (group : List Nat) :
    withinSquare size i group = true ↔ ∀ b ∈ group, cellsCompat size i b := by
  unfold withinSquare cellsCompat
  simp [List.all_eq_true]

/-- All members of `c` are pairwise Chebyshev-adjacent. -/
def pairwiseCompat (size : Nat) (c : List Nat) : Prop :=
  ∀ a ∈ c, ∀ b ∈ c, cellsCompat size a b

theorem insertCell_pairwise (size i : Nat) (parts : List (List Nat))
    (h : ∀ c ∈ parts, pairwiseCompat size c) :
    ∀ c ∈ insertCell size i parts, pairwiseCompat size c := by
  induction parts with
  | nil =>
    intro c hc
    simp only [insertCell, List.mem_singleton] at hc
    intro a ha b hb
    rw [hc] at ha hb
    simp only [List.mem_singleton] at ha hb
    rw [ha, hb]
    exact cellsCompat_refl size i
  | cons p ps ih =>
    intro c hc
    simp only [insertCell] at hc
    by_cases hw : withinSquare size i p = true
    · rw [if_pos hw] at hc
      rcases List.mem_cons.mp hc with hc | hc
      · have hp : pairwiseCompat size p := h p (List.mem_cons_self _ _)
        have hcomp := (withinSquare_iff size i p).mp hw
        intro a ha b hb
        rw [hc] at ha hb
        rcases List.mem_append.mp ha with ha1 | ha1 <;>
          rcases List.mem_append.mp hb with hb1 | hb1
        · exact hp a ha1 b hb1
        · simp only [List.mem_singleton] at hb1
          rw [hb1]
          exact cellsCompat_symm size (hcomp a ha1)
        · simp only [List.mem_singleton] at ha1
          rw [ha1]
          exact hcomp b hb1
        · simp only [List.mem_singleton] at ha1 hb1
          rw [ha1, hb1]
          exact cellsCompat_refl size i
      · exact h c (List.mem_cons_of_mem _ hc)
    · rw [if_neg hw] at hc
      rcases List.mem_cons.mp hc with hc | hc
      · rw [hc]
        exact h p (List.mem_cons_self _ _)
      · exact ih (fun d hd => h d (List.mem_cons_of_mem _ hd)) c hc

theorem insertCell_flatten_perm (size i : Nat) (parts : List (List Nat)) :
    (insertCell size i parts).flatten.Perm (i :: parts.flatten) := by
  induction parts with
  | nil => simp [insertCell]
  | cons p ps ih =>
    simp only [insertCell]
    by_cases hw : withinSquare size i p = true
    · rw [if_pos hw]
      simp only [List.flatten_cons, List.append_assoc, List.singleton_append]
      exact List.perm_middle
    · rw [if_neg hw]
      simp only [List.flatten_cons]
      exact (List.Perm.append_left p ih).trans List.perm_middle

theorem foldl_insertCell_flatten_perm (size : Nat) (idxs : List Nat) :
    ∀ parts : List (List Nat),
      (idxs.foldl (fun ps j => insertCell size j ps) parts).flatten.Perm
        (idxs ++ parts.flatten) := by
  induction idxs with
  | nil => intro parts; simp
  | cons a l ih =>
    intro parts
    simp only [List.foldl_cons, List.cons_append]
    exact ((ih (insertCell size a parts)).trans
      (List.Perm.append_left l (insertCell_flatten_perm size a parts))).trans
      List.perm_middle

theorem foldl_insertCell_pairwise (size : Nat) (idxs : List Nat) :
    ∀ parts : List (List Nat), (∀ c ∈ parts, pairwiseCompat size c) →
      ∀ c ∈ idxs.foldl (fun ps j => insertCell size j ps) parts, pairwiseCompat size c := by
  induction idxs with
  | nil => intro parts h c hc; exact h c hc
  | cons a l ih =>
    intro parts h c hc
    exact ih (insertCell size a parts) (insertCell_pairwise size a parts h) c hc

theorem partitionCells_flatten_perm (size : Nat) (idxs : List Nat) :
    (partitionCells size idxs).flatten.Perm idxs := by
  have h := foldl_insertCell_flatten_perm size idxs []
  simpa [partitionCells] using h

theorem countP_mem_of_count_sum (i : Nat) (cls : List (List Nat))
    (h : (cls.map (fun c => c.count i)).sum = 1) :
    cls.countP (fun c => decide (i ∈ c)) = 1 := by
  induction cls with
  | nil => simp at h
  | cons c cs ih =>
    simp only [List.map_cons, List.sum_cons] at h
    by_cases hm : i ∈ c
    · have hc1 : 0 < c.count i := List.count_pos_iff_mem.mpr hm
      have hnone : cs.countP (fun c => decide (i ∈ c)) = 0 := by
        rw [List.countP_eq_zero]
        intro d hd
        simp only [decide_eq_true_eq]
        intro hmem
        have h1 : 0 < d.count i := List.count_pos_iff_mem.mpr hmem
        have h2 : d.count i ≤ (cs.map (fun c => c.count i)).sum :=
          List.single_le_sum (fun x _ => Nat.zero_le x) _
            (List.mem_map_of_mem _ hd)
        omega
      rw [List.countP_cons]
      simp [hm, hnone]
    · have hc0 : c.count i = 0 := List.count_eq_zero.mpr hm
      rw [List.countP_cons]
      simp only [decide_eq_true_eq, hm, if_false]
      simpa using ih (by omega)

theorem C8_partitionCells_clusters (size : Nat) (idxs : List Nat) (hnd : idxs.Nodup)
    (hbound : ∀ i ∈ idxs, i < size * size) :
    (∀ c ∈ partitionCells size idxs, ∀ a ∈ c, ∀ b ∈ c,
        (((a % size : Nat) : Int) - ((b % size : Nat) : Int)).natAbs ≤ 1 ∧
        (((a / size : Nat) : Int) - ((b / size : Nat) : Int)).natAbs ≤ 1) ∧
    (∀ i ∈ idxs, (partitionCells size idxs).countP (fun c => decide (i ∈ c)) = 1) := by
  constructor
  · intro c hc
    have hall := foldl_insertCell_pairwise size idxs [] (by simp) c hc
    intro a ha b hb
    exact hall a ha b hb
  · intro i hi
    have hperm := partitionCells_flatten_perm size idxs
    have hcount : (partitionCells size idxs).flatten.count i = 1 := by
      rw [hperm.count_eq]
      exact List.count_eq_one_of_mem hnd hi
    rw [List.count_flatten] at hcount
    exact countP_mem_of_count_sum i _ hcount

/-- Witness for C8 at size 3 with input `[0, 1, 5]`. -/
theorem C8_partitionCells_clusters_witness :
    ([0, 1, 5] : List Nat).Nodup ∧ (∀ i ∈ ([0, 1, 5] : List Nat), i < 3 * 3) ∧
    ((∀ c ∈ partitionCells 3 [0, 1, 5], ∀ a ∈ c, ∀ b ∈ c,
        (((a % 3 : Nat) : Int) - ((b % 3 : Nat) : Int)).natAbs ≤ 1 ∧
        (((a / 3 : Nat) : Int) - ((b / 3 : Nat) : Int)).natAbs ≤ 1) ∧
    (∀ i ∈ ([0, 1, 5] : List Nat),
        (partitionCells 3 [0, 1, 5]).countP (fun c => decide (i ∈ c)) = 1)) :=
  ⟨by decide, by decide, C8_partitionCells_clusters 3 [0, 1, 5] (by decide) (by decide)⟩

/-! ## Claim C10 - applyNextStep -/

theorem getElem?_foldl_set (ty : Cell) (idcs : List Nat) :
    ∀ (cells : List Cell) (k : Nat),
      (idcs.foldl (fun cs j => cs.set j ty) cells)[k]? =
        if k ∈ idcs ∧ k < cells.length then some ty else cells[k]? := by
  induction idcs with
  | nil => intro cells k; simp
  | cons a l ih =>
    intro cells k
    simp only [List.foldl_cons]
    rw [ih]
    simp only [List.length_set, List.getElem?_set, List.mem_cons]
    by_cases h3 : a = k
    case pos =>
      subst h3
      by_cases h2 : a < cells.length
      case pos =>
        by_cases h1 : a ∈ l <;> simp [List.getElem?_set, h1, h2]
      case neg =>
        by_cases h1 : a ∈ l <;>
          simp [List.getElem?_set, h1, h2, List.getElem?_eq_none (by omega : cells.length ≤ a)]
    case neg =>
      have h3' : ¬ k = a := fun hh => h3 hh.symm
      by_cases h2 : k < cells.length <;> by_cases h1 : k ∈ l <;>
        simp [List.getElem?_set, h1, h2, h3, h3']


theorem length_foldl_set (ty : Cell) (idcs : List Nat) :
    ∀ cells : List Cell, (idcs.foldl (fun cs j => cs.set j ty) cells).length = cells.length := by
  induction idcs with
  | nil => intro cells; rfl
  | cons a l ih =>
    intro cells
    simp only [List.foldl_cons]
    rw [ih, List.length_set]

theorem C10_applyNextStep (cells : List Cell) (step : PuzzleStep) :
    ((step.indices = none ∨ step.indices = some [] ∨ step.type = none) →
        applyNextStep cells step = none) ∧
    (∀ idcs ty, step.indices = some idcs → step.type = some ty → idcs ≠ [] →
        (∀ k ∈ idcs, k < cells.length) →
        ∃ res, applyNextStep cells step = some res ∧
          res.length = cells.length ∧
          (∀ k ∈ idcs, res[k]? = some ty) ∧
          (∀ k, k ∉ idcs → res[k]? = cells[k]?)) := by
  constructor
  · intro h
    unfold applyNextStep
    rcases h with h | h | h <;> rw [h] <;> try rfl
    · cases step.type <;> rfl
    · cases step.indices with
      | none => rfl
      | some idcs => cases idcs <;> rfl
  · intro idcs ty hidx hty hne hbound
    unfold applyNextStep
    have hni : idcs.isEmpty = false := by
      cases idcs with
      | nil => exact absurd rfl hne
      | cons a l => rfl
    rw [hidx, hty]
    simp only [hni, Bool.false_eq_true, if_false]
    refine ⟨_, rfl, length_foldl_set ty idcs cells, ?_, ?_⟩
    · intro k hk
      rw [getElem?_foldl_set]
      simp [hk, hbound k hk]
    · intro k hk
      rw [getElem?_foldl_set]
      simp [hk]

/-- Witness for C10 on a 3-cell list with a step starring cells 0 and 2. -/
theorem C10_applyNextStep_witness :
    ({ indices := some [0, 2], type := some Cell.STAR : PuzzleStep }).indices = some [0, 2] ∧
    (∀ k ∈ ([0, 2] : List Nat),
        k < ([Cell.BLANK, Cell.BLANK, Cell.BLANK] : List Cell).length) ∧
    ∃ res, applyNextStep [Cell.BLANK, Cell.BLANK, Cell.BLANK]
        { indices := some [0, 2], type := some Cell.STAR } = some res ∧
      res.length = ([Cell.BLANK, Cell.BLANK, Cell.BLANK] : List Cell).length ∧
      (∀ k ∈ ([0, 2] : List Nat), res[k]? = some Cell.STAR) ∧
      (∀ k, k ∉ ([0, 2] : List Nat) →
        res[k]? = ([Cell.BLANK, Cell.BLANK, Cell.BLANK] : List Cell)[k]?) :=
  ⟨rfl, by decide,
   (C10_applyNextStep [Cell.BLANK, Cell.BLANK, Cell.BLANK]
      { indices := some [0, 2], type := some Cell.STAR }).2
     [0, 2] Cell.STAR rfl rfl (by decide) (by decide)⟩

/-! ## Claim C3 — the validator's ordered checks -/

/-- The over-count scan over one labelled batch equals the source's
`processTooManyStarsRule` for that batch. -/
theorem tooManySpecView (cells : List Cell) (sc : Nat) (parts : List (List Nat)) (name : String) :
    (parts.map (fun r => (r, name))).findSome? (fun pn =>
      if getStarCount pn.1 cells > sc then
        some ({ indices := some pn.1,
                message := some s!"This {pn.2} contains too many stars." } : PuzzleStep)
      else none)
    = processTooManyStarsRule cells sc parts name := by
  unfold processTooManyStarsRule
  rw [List.findSome?_map]
  rfl

/-- The under-feasibility scan over one labelled batch equals the source's
`processNotEnoughSpacesRule` for that batch. -/
theorem notEnoughSpecView (cells : List Cell) (sc : Nat) (parts : List (List Nat)) (name : String) :
    (parts.map (fun r => (r, name))).findSome? (fun pn =>
      if ((sc : Int) - (getStarCount pn.1 cells : Int) >
          (getCellCount pn.1 cells Cell.BLANK : Int)) then
        some ({ indices := some pn.1,
                message := some s!"This {pn.2} contains too few blank spaces." } : PuzzleStep)
      else none)
    = processNotEnoughSpacesRule cells sc parts name := by
  unfold processNotEnoughSpacesRule
  rw [List.findSome?_map]
  rfl

/-- Claim C3: `getSolutionError` performs the ordered checks of the claim —
first the star-adjacency scan (citing the two offending cells with message
"Stars cannot be next to each other."), then the first over-count partition
(full index set, "... contains too many stars."), then the first
under-feasible partition ("... contains too few blank spaces."), otherwise
the empty step — as captured by `getSolutionErrorSpec`, written from the
claim's wording. -/
theorem C3_getSolutionError_checks (pd : PuzzleData) :
    getSolutionError pd = getSolutionErrorSpec pd := by
  unfold getSolutionError getSolutionErrorSpec
  cases findAdjacentStars pd.cells pd.size with
  | some e => rfl
  | none =>
    simp only [List.findSome?_append, tooManySpecView, notEnoughSpecView]
    cases processTooManyStarsRule pd.cells pd.starCount pd.rows "row" with
    | some e => rfl
    | none =>
    cases processTooManyStarsRule pd.cells pd.starCount pd.columns "column" with
    | some e => rfl
    | none =>
    cases processTooManyStarsRule pd.cells pd.starCount pd.groups "group" with
    | some e => rfl
    | none =>
    cases processNotEnoughSpacesRule pd.cells pd.starCount pd.rows "row" with
    | some e => rfl
    | none =>
    cases processNotEnoughSpacesRule pd.cells pd.starCount pd.columns "column" with
    | some e => rfl
    | none =>
    cases processNotEnoughSpacesRule pd.cells pd.starCount pd.groups "group" with
    | some e => rfl
    | none => rfl

/-! ## Claim C5 — the search's early-abort condition -/

/-- Counterexample to claim C5: on the all-blank 2×2 state with a single
group covering the grid, at cursor 2 the first row lies entirely below the
cursor and still lacks its star, so the claimed condition holds, but the
source's `pastUnfinishedGroup` — which only inspects groups — does not abort. -/
theorem C5_counterexample :
    pastUnfinishedPartitionClaimed 2 flatState flatState.cells = true ∧
    pastUnfinishedGroup 2 flatState.groups flatState.cells flatState.starCount = false := by
  decide

/-- Claim C5 as amended: the branch is aborted at a cursor exactly when some
group whose last listed member index lies below the cursor has a star count
different from `starCount`; rows and columns are not examined. -/
theorem C5_pastUnfinishedGroup_iff (cutoff : Nat) (groups : List (List Nat))
    (cells : List Cell) (sc : Nat) :
    pastUnfinishedGroup cutoff groups cells sc = true ↔
    ∃ g ∈ groups, getStarCount g cells ≠ sc ∧ ∃ l, g.getLast? = some l ∧ l < cutoff := by
  unfold pastUnfinishedGroup
  rw [List.any_eq_true]
  constructor
  · rintro ⟨g, hg, hb⟩
    rw [Bool.and_eq_true] at hb
    refine ⟨g, hg, by simpa using hb.1, ?_⟩
    rcases hl : g.getLast? with _ | l
    · rw [hl] at hb
      simp at hb
    · rw [hl] at hb
      exact ⟨l, rfl, by simpa using hb.2⟩
  · rintro ⟨g, hg, hne, l, hl, hlt⟩
    refine ⟨g, hg, ?_⟩
    rw [Bool.and_eq_true, hl]
    exact ⟨by simpa using hne, by simpa using hlt⟩

/-! ## Soundness of the backtracking search (claims C2 and C4) -/


/-- Every star of `a` is still a star in `b`. -/
def starsPreserved (a b : List Cell) : Prop :=
  ∀ k : Nat, a[k]? = some Cell.STAR → b[k]? = some Cell.STAR

theorem starsPreserved_refl (a : List Cell) : starsPreserved a a := fun _ h => h

theorem starsPreserved_trans {a b c : List Cell}
    (h1 : starsPreserved a b) (h2 : starsPreserved b c) : starsPreserved a c :=
  fun k h => h2 k (h1 k h)

theorem starsPreserved_setStar (cells : List Cell) (i : Nat) :
    starsPreserved cells (cells.set i Cell.STAR) := by
  intro k h
  rw [List.getElem?_set]
  by_cases hik : i = k
  · subst hik
    have : i < cells.length := by
      rcases List.getElem?_eq_some.mp h with ⟨hl, _⟩
      exact hl
    simp [this]
  · simp [hik, h]

theorem starsPreserved_setX (cells : List Cell) (i : Nat)
    (hb : cells[i]? = some Cell.BLANK) : starsPreserved cells (cells.set i Cell.X) := by
  intro k h
  rw [List.getElem?_set]
  by_cases hik : i = k
  · subst hik
    rw [hb] at h
    exact absurd h (by simp)
  · simp [hik, h]

theorem isSolved_false_of_adjacent (pd : PuzzleData) (i j : Nat)
    (hj : j ∈ getNeighbouringIndices pd.size i)
    (hi : pd.cells[i]? = some Cell.STAR) (hjs : pd.cells[j]? = some Cell.STAR) :
    isSolved pd = false := by
  cases hb : isSolved pd with
  | false => rfl
  | true =>
    exfalso
    unfold isSolved at hb
    simp only [Bool.and_eq_true, List.all_eq_true] at hb
    obtain ⟨⟨⟨h1, _⟩, _⟩, _⟩ := hb
    have hilen : i < pd.cells.length := (List.getElem?_eq_some.mp hi).1
    have hmem : i ∈ range 0 pd.cells.length := by
      unfold range
      rw [List.mem_range'_1]
      omega
    have := h1 i hmem
    rw [hi] at this
    simp only [decide_eq_true_eq, Bool.not_eq_true', Bool.and_eq_false_iff] at this
    rcases this with h | h
    · simp at h
    · cases hf : (getNeighbouringIndices pd.size i).find?
          (fun j => decide (pd.cells[j]? = some Cell.STAR)) with
      | some v => rw [hf] at h; simp at h
      | none =>
        have := List.find?_eq_none.mp hf j hj
        simp [hjs] at this

theorem guessLoop_sound (pd0 : PuzzleData) (dfuel : Nat)
    (recur : List Cell → Nat → Option (List Cell))
    (hrec : ∀ cells start cs, recur cells start = some cs →
        isSolved { pd0 with cells := cs } = true ∧ starsPreserved cells cs) :
    ∀ (n : Nat) (cells : List Cell) (i : Nat) (cs : List Cell),
      guessLoop pd0 dfuel recur n cells i = some cs →
      isSolved { pd0 with cells := cs } = true ∧ starsPreserved cells cs := by
  intro n
  induction n with
  | zero => intro cells i cs h; exact absurd h (by simp [guessLoop])
  | succ n ih =>
    intro cells i cs h
    unfold guessLoop at h
    by_cases h1 : i < cells.length
    case neg => rw [if_neg h1] at h; exact absurd h (by simp)
    rw [if_pos h1] at h
    by_cases h2 : pastUnfinishedGroup i pd0.groups cells pd0.starCount = true
    case pos => rw [if_pos h2] at h; exact absurd h (by simp)
    rw [if_neg h2] at h
    by_cases h3 : cells[i]? = some Cell.BLANK
    case neg =>
      rw [if_pos (by simpa using h3)] at h
      exact ih cells (i+1) cs h
    rw [if_neg (by simpa using h3)] at h
    split at h
    · exact ih cells (i+1) cs h
    split at h
    · exact ih cells (i+1) cs h
    split at h
    · exact ih cells (i+1) cs h
    split at h
    · exact ih cells (i+1) cs h
    split at h
    next res hr =>
      simp only [Option.some.injEq] at h
      subst h
      obtain ⟨hs, hp⟩ := hrec _ _ _ hr
      exact ⟨hs, starsPreserved_trans (starsPreserved_setStar cells i) hp⟩
    next hr =>
      by_cases h4 : (applyNextStepsPure dfuel { pd0 with cells := cells.set i Cell.X }).isSome = true
      · rw [if_pos h4] at h
        exact absurd h (by simp)
      · rw [if_neg h4] at h
        obtain ⟨hs, hp⟩ := ih (cells.set i Cell.X) (i+1) cs h
        exact ⟨hs, starsPreserved_trans (starsPreserved_setX cells i h3) hp⟩

theorem findSolutionHelper_sound :
    ∀ (fuel : Nat) (pd : PuzzleData) (dfuel start : Nat) (cs : List Cell),
      findSolutionHelper fuel pd dfuel start = some cs →
      isSolved { pd with cells := cs } = true ∧ starsPreserved pd.cells cs := by
  intro fuel
  induction fuel with
  | zero => intro pd dfuel start cs h; exact absurd h (by simp [findSolutionHelper])
  | succ fuel ih =>
    intro pd dfuel start cs h
    unfold findSolutionHelper at h
    split at h
    · exact absurd h (by simp)
    split at h
    · exact absurd h (by simp)
    split at h
    case isTrue hsol =>
      simp only [Option.some.injEq] at h
      subst h
      exact ⟨hsol, starsPreserved_refl pd.cells⟩
    case isFalse =>
      refine guessLoop_sound pd dfuel _ ?_ pd.cells.length pd.cells start cs h
      intro cells start' cs' h'
      exact ih { pd with cells := cells } dfuel start' cs' h'

/-- Claim C4: on any state with two 8-adjacent pre-placed stars,
`findSolution` reports no solution (it never throws: the embedding is a
total function returning an optional result).  Stars are never removed by
the search, so no reachable assignment can pass `isSolved`. -/
theorem C4_findSolution_adjacent (fuel : Nat) (pd : PuzzleData) (dfuel i j : Nat)
    (hj : j ∈ getNeighbouringIndices pd.size i)
    (hi : pd.cells[i]? = some Cell.STAR) (hjs : pd.cells[j]? = some Cell.STAR) :
    findSolution fuel pd dfuel = none := by
  cases h : findSolution fuel pd dfuel with
  | none => rfl
  | some cs =>
    exfalso
    obtain ⟨hsol, hpres⟩ := findSolutionHelper_sound fuel pd dfuel 0 cs h
    have hfalse := isSolved_false_of_adjacent { pd with cells := cs } i j hj
      (hpres i hi) (hpres j hjs)
    rw [hsol] at hfalse
    exact Bool.noConfusion hfalse

/-- Witness for C4 on the 2×2 state with stars at cells 0 and 1. -/
theorem C4_findSolution_adjacent_witness :
    1 ∈ getNeighbouringIndices adjacentStarsState.size 0 ∧
    adjacentStarsState.cells[0]? = some Cell.STAR ∧
    adjacentStarsState.cells[1]? = some Cell.STAR ∧
    findSolution 10 adjacentStarsState 60 = none :=
  ⟨by decide, by decide, by decide,
   C4_findSolution_adjacent 10 adjacentStarsState 60 0 1 (by decide) (by decide) (by decide)⟩

/-! ## Claims C6 and C9 - frame effects and determinism of the engine -/


/-- Writing Star then Blank back at a blank position restores the list. -/
theorem set_set_cancel (l : List Cell) (i : Nat) (h : l[i]? = some Cell.BLANK) :
    (l.set i Cell.STAR).set i Cell.BLANK = l := by
  have hlen : i < l.length := (List.getElem?_eq_some.mp h).1
  apply List.ext_getElem?
  intro n
  rw [List.set_set, List.getElem?_set]
  by_cases hin : i = n
  · subst hin
    simp [hlen, h.symm]
  · simp [hin]

/-- The lookahead loop restores `puzzleData.cells` before returning. -/
theorem lookaheadLoop_cells (check : PuzzleData → Option PuzzleStep) (pd : PuzzleData) :
    ∀ (n : Nat) (cur : List Cell) (i : Nat), (lookaheadLoop check pd n cur i).2 = cur := by
  intro n
  induction n with
  | zero => intro cur i; rfl
  | succ n ih =>
    intro cur i
    unfold lookaheadLoop
    by_cases h1 : i < cur.length
    · rw [if_pos h1]
      by_cases h2 : cur[i]? = some Cell.BLANK
      · rw [if_pos (by simpa using h2)]
        have hre : (cur.set i Cell.STAR).set i Cell.BLANK = cur := set_set_cancel cur i h2
        simp only [hre]
        split
        · rfl
        · exact ih cur (i+1)
      · rw [if_neg (by simpa using h2)]
        try exact ih cur (i+1)
    · rw [if_neg h1]
      try rfl

/-- `getNextStep` (in either mode) leaves `puzzleData.cells` as it found it. -/
theorem getNextStepGo_cells (dfuel mg : Nat) (pd : PuzzleData) :
    (getNextStepGo dfuel mg pd).2 = pd.cells := by
  cases mg with
  | zero => rfl
  | succ mg =>
    unfold getNextStepGo
    cases ruleBattery pd with
    | some s => rfl
    | none => exact lookaheadLoop_cells _ pd pd.cells.length pd.cells 0

/-- Claim C6: the engine's entry points leave the caller's cells intact.
`getSolutionError` and the rule battery perform no writes at all (they are
pure functions of the state in this embedding); `getNextStep` in lookahead
mode temporarily writes a star and restores it before returning (first
conjunct, via `lookaheadLoop_cells`); and `findSolution` puts the saved
`backup` back into `puzzleData.cells` before returning, having searched on a
private clone (second conjunct). -/
theorem C6_cells_frame (dfuel mg fuel : Nat) (pd : PuzzleData) :
    (getNextStepGo dfuel mg pd).2 = pd.cells ∧
    (findSolutionM fuel pd dfuel).2 = pd.cells :=
  ⟨getNextStepGo_cells dfuel mg pd, rfl⟩

/-- Claim C9: running `getNextStep` a second time on the state exactly as
the first call left it yields the identical step (and final cells): the
engine is deterministic and restores its only temporary mutation. -/
theorem C9_getNextStep_deterministic (dfuel mg : Nat) (pd : PuzzleData) :
    getNextStepGo dfuel mg { pd with cells := (getNextStepGo dfuel mg pd).2 } =
      getNextStepGo dfuel mg pd := by
  rw [getNextStepGo_cells]

/-- Invariant of the region-builder state: live group identifiers are
distinct and fresh, member lists and the `indexToGroup` map agree in both
directions, member lists have no duplicates, and all members are in range. -/
structure GInv (bound : Nat) (s : GroupState) : Prop where
  nodupIds : (s.gs.map Prod.fst).Nodup
  idsLt : ∀ p ∈ s.gs, p.1 < s.nid
  memIdx : ∀ p ∈ s.gs, ∀ j ∈ p.2, s.idx j = some p.1
  idxMem : ∀ j g, s.idx j = some g → ∃ p ∈ s.gs, p.1 = g ∧ j ∈ p.2
  nodupMem : ∀ p ∈ s.gs, p.2.Nodup
  memLt : ∀ p ∈ s.gs, ∀ j ∈ p.2, j < bound

theorem membersOf_eq {s : GroupState} (hn : (s.gs.map Prod.fst).Nodup)
    {p : Nat × List Nat} (hp : p ∈ s.gs) : membersOf s p.1 = p.2 := by
  unfold membersOf
  cases hf : s.gs.find? (fun q => q.1 = p.1) with
  | none =>
    have := List.find?_eq_none.mp hf p hp
    simp at this
  | some q =>
    have hq : q ∈ s.gs := List.mem_of_find?_eq_some hf
    have hqp : q.1 = p.1 := by simpa using List.find?_some hf
    have : q = p := List.inj_on_of_nodup_map hn hq hp hqp
    rw [this]
    rfl

theorem setGroup_idx (s : GroupState) (i g j : Nat) :
    (setGroup s i g).idx j = if j = i then some g else s.idx j := rfl

theorem setGroup_gs (s : GroupState) (i g : Nat) :
    (setGroup s i g).gs = s.gs.map (fun p => if p.1 = g then (p.1, p.2 ++ [i]) else p) := rfl

theorem setGroup_nid (s : GroupState) (i g : Nat) : (setGroup s i g).nid = s.nid := rfl

theorem map_fst_setGroup (s : GroupState) (i g : Nat) :
    (setGroup s i g).gs.map Prod.fst = s.gs.map Prod.fst := by
  unfold setGroup
  rw [List.map_map]
  refine List.map_congr_left ?_
  intro p _
  by_cases h : p.1 = g <;> simp [h]

theorem GInv.setGroup_fresh {bound : Nat} {s : GroupState} (inv : GInv bound s) {i g : Nat}
    (hg : ∃ p ∈ s.gs, p.1 = g) (hfresh : s.idx i = none) (hib : i < bound) :
    GInv bound (setGroup s i g) := by
  obtain ⟨pg, hpg, hpg1⟩ := hg
  constructor
  · rw [map_fst_setGroup]
    exact inv.nodupIds
  · intro p' hp'
    obtain ⟨p, hp, rfl⟩ := List.mem_map.mp hp'
    have : (if p.1 = g then (p.1, p.2 ++ [i]) else p).1 = p.1 := by
      by_cases h : p.1 = g <;> simp [h]
    rw [this]
    exact inv.idsLt p hp
  · intro p' hp' j hj
    obtain ⟨p, hp, rfl⟩ := List.mem_map.mp hp'
    by_cases h : p.1 = g
    · rw [if_pos h] at hj ⊢
      rcases List.mem_append.mp hj with hj1 | hj1
      · have hji : j ≠ i := by
          intro he
          have hmem := inv.memIdx p hp j hj1
          rw [he, hfresh] at hmem
          exact Option.noConfusion hmem
        rw [setGroup_idx, if_neg hji]
        exact inv.memIdx p hp j hj1
      · simp only [List.mem_singleton] at hj1
        rw [setGroup_idx, if_pos hj1, h]
    · rw [if_neg h] at hj ⊢
      have hji : j ≠ i := by
        intro he
        have hmem := inv.memIdx p hp j hj
        rw [he, hfresh] at hmem
        exact Option.noConfusion hmem
      rw [setGroup_idx, if_neg hji]
      exact inv.memIdx p hp j hj
  · intro j h hj
    by_cases hji : j = i
    · have hj' : some g = some h := by
        rw [setGroup_idx, if_pos hji] at hj
        exact hj
      have hgh : g = h := by injection hj'
      refine ⟨(pg.1, pg.2 ++ [i]), ?_, ?_, ?_⟩
      · have heq : (if pg.1 = g then (pg.1, pg.2 ++ [i]) else pg) = (pg.1, pg.2 ++ [i]) := by
          rw [if_pos hpg1]
        rw [setGroup_gs, ← heq]
        exact List.mem_map_of_mem _ hpg
      · simpa using hpg1.trans hgh
      · simp [hji]
    · rw [setGroup_idx, if_neg hji] at hj
      obtain ⟨p, hp, hp1, hpj⟩ := inv.idxMem j h hj
      by_cases hc : p.1 = g
      · refine ⟨(p.1, p.2 ++ [i]), ?_, hp1, by simp [hpj]⟩
        have heq : (if p.1 = g then (p.1, p.2 ++ [i]) else p) = (p.1, p.2 ++ [i]) := if_pos hc
        rw [setGroup_gs, ← heq]
        exact List.mem_map_of_mem _ hp
      · refine ⟨p, ?_, hp1, hpj⟩
        have heq : (if p.1 = g then (p.1, p.2 ++ [i]) else p) = p := if_neg hc
        rw [setGroup_gs, ← heq]
        exact List.mem_map_of_mem _ hp
  · intro p' hp'
    obtain ⟨p, hp, rfl⟩ := List.mem_map.mp hp'
    by_cases h : p.1 = g
    · rw [if_pos h]
      show (p.2 ++ [i]).Nodup
      rw [List.nodup_append]
      refine ⟨inv.nodupMem p hp, by simp, ?_⟩
      intro a ha hb
      simp only [List.mem_singleton] at hb
      subst hb
      have := inv.memIdx p hp a ha
      rw [hfresh] at this
      exact Option.noConfusion this
    · rw [if_neg h]
      exact inv.nodupMem p hp
  · intro p' hp' j hj
    obtain ⟨p, hp, rfl⟩ := List.mem_map.mp hp'
    by_cases h : p.1 = g
    · rw [if_pos h] at hj
      rcases List.mem_append.mp hj with hj1 | hj1
      · exact inv.memLt p hp j hj1
      · simp only [List.mem_singleton] at hj1
        subst hj1
        exact hib
    · rw [if_neg h] at hj
      exact inv.memLt p hp j hj

theorem GInv.addEmptyGroup {bound : Nat} {s : GroupState} (inv : GInv bound s) :
    GInv bound { s with gs := s.gs ++ [(s.nid, [])], nid := s.nid + 1 } := by
  constructor
  · rw [List.map_append, List.nodup_append]
    refine ⟨inv.nodupIds, by simp, ?_⟩
    intro a ha hb
    simp only [List.map_cons, List.map_nil, List.mem_singleton] at hb
    obtain ⟨p, hp, rfl⟩ := List.mem_map.mp ha
    have := inv.idsLt p hp
    omega
  · intro p hp
    show p.1 < s.nid + 1
    rcases List.mem_append.mp hp with hp1 | hp1
    · have := inv.idsLt p hp1
      omega
    · simp only [List.mem_singleton] at hp1
      rw [hp1]
      omega
  · intro p hp j hj
    rcases List.mem_append.mp hp with hp1 | hp1
    · exact inv.memIdx p hp1 j hj
    · simp only [List.mem_singleton] at hp1
      rw [hp1] at hj
      exact absurd hj (by simp)
  · intro j g hj
    obtain ⟨p, hp, hp1, hpj⟩ := inv.idxMem j g hj
    exact ⟨p, List.mem_append.mpr (Or.inl hp), hp1, hpj⟩
  · intro p hp
    rcases List.mem_append.mp hp with hp1 | hp1
    · exact inv.nodupMem p hp1
    · simp only [List.mem_singleton] at hp1
      rw [hp1]
      simp
  · intro p hp j hj
    rcases List.mem_append.mp hp with hp1 | hp1
    · exact inv.memLt p hp1 j hj
    · simp only [List.mem_singleton] at hp1
      rw [hp1] at hj
      exact absurd hj (by simp)

/-- Closed form of the merge fold: every member of `m` is pushed onto the
`gc` entry and remapped to `gc`. -/
theorem foldl_setGroup_closed (gc : Nat) (m : List Nat) :
    ∀ s : GroupState,
      (m.foldl (fun t j => setGroup t j gc) s).gs
          = s.gs.map (fun p => if p.1 = gc then (p.1, p.2 ++ m) else p) ∧
      (m.foldl (fun t j => setGroup t j gc) s).idx
          = (fun j => if j ∈ m then some gc else s.idx j) ∧
      (m.foldl (fun t j => setGroup t j gc) s).nid = s.nid := by
  induction m with
  | nil =>
    intro s
    refine ⟨?_, by funext j; simp, rfl⟩
    have hid : ∀ p ∈ s.gs, (if p.1 = gc then (p.1, p.2 ++ ([] : List Nat)) else p) = p := by
      intro p _
      by_cases h : p.1 = gc
      · rw [if_pos h, List.append_nil]
      · rw [if_neg h]
    show s.gs = s.gs.map (fun p => if p.1 = gc then (p.1, p.2 ++ ([] : List Nat)) else p)
    rw [List.map_congr_left hid, List.map_id']
  | cons a m ih =>
    intro s
    simp only [List.foldl_cons]
    obtain ⟨h1, h2, h3⟩ := ih (setGroup s a gc)
    refine ⟨?_, ?_, h3.trans (setGroup_nid s a gc)⟩
    · rw [h1, setGroup_gs, List.map_map]
      refine List.map_congr_left ?_
      intro p _
      by_cases h : p.1 = gc
      · simp [h, List.append_assoc]
      · simp [h]
    · rw [h2]
      funext j
      rw [setGroup_idx]
      by_cases hm : j ∈ m
      · simp [hm]
      · by_cases ha : j = a <;> simp [hm, ha]

theorem GInv.merged {bound : Nat} {s : GroupState} (inv : GInv bound s) {gc gn : Nat}
    (hcne : gc ≠ gn) {pc pn : Nat × List Nat}
    (hpc : pc ∈ s.gs) (hpc1 : pc.1 = gc) (hpn : pn ∈ s.gs) (hpn1 : pn.1 = gn) :
    GInv bound
      { gs := (s.gs.map (fun p => if p.1 = gc then (p.1, p.2 ++ pn.2) else p)).filter
          (fun p => decide (p.1 ≠ gn)),
        idx := fun j => if j ∈ pn.2 then some gc else s.idx j,
        nid := s.nid } := by
  have hfst : ∀ p : Nat × List Nat,
      ((fun p => if p.1 = gc then (p.1, p.2 ++ pn.2) else p) p).1 = p.1 := by
    intro p
    by_cases h : p.1 = gc <;> simp [h]
  have hnmem : ∀ j ∈ pn.2, s.idx j = some gn := by
    intro j hj
    rw [← hpn1]
    exact inv.memIdx pn hpn j hj
  have hmemof : ∀ q, q ∈ (s.gs.map (fun p => if p.1 = gc then (p.1, p.2 ++ pn.2) else p)).filter
      (fun p => decide (p.1 ≠ gn)) → ∃ p ∈ s.gs,
        (if p.1 = gc then (p.1, p.2 ++ pn.2) else p) = q ∧ q.1 ≠ gn := by
    intro q hq
    rw [List.mem_filter] at hq
    obtain ⟨p, hp, hfq⟩ := List.mem_map.mp hq.1
    exact ⟨p, hp, hfq, by simpa using hq.2⟩
  constructor
  · show (((s.gs.map _).filter _).map Prod.fst).Nodup
    have heq : (s.gs.map (fun p => if p.1 = gc then (p.1, p.2 ++ pn.2) else p)).map Prod.fst
        = s.gs.map Prod.fst := by
      rw [List.map_map]
      exact List.map_congr_left (fun p _ => hfst p)
    have hsub := ((List.filter_sublist
        (l := s.gs.map (fun p => if p.1 = gc then (p.1, p.2 ++ pn.2) else p))
        (p := fun p => decide (p.1 ≠ gn)))).map Prod.fst
    rw [heq] at hsub
    exact inv.nodupIds.sublist hsub
  · intro q hq
    obtain ⟨p, hp, hfq, _⟩ := hmemof q hq
    have : q.1 = p.1 := by rw [← hfq]; exact hfst p
    rw [this]
    exact inv.idsLt p hp
  · intro q hq j hj
    obtain ⟨p, hp, hfq, hqn⟩ := hmemof q hq
    by_cases hc : p.1 = gc
    · rw [if_pos hc] at hfq
      rw [← hfq] at hj ⊢
      simp only at hj ⊢
      rcases List.mem_append.mp hj with hj1 | hj1
      · have := inv.memIdx p hp j hj1
        by_cases hjm : j ∈ pn.2
        · rw [if_pos hjm, hc]
        · rw [if_neg hjm, this, hc]
      · rw [if_pos hj1, hc]
    · rw [if_neg hc] at hfq
      rw [← hfq] at hj ⊢
      have hidx := inv.memIdx p hp j hj
      have hjm : j ∉ pn.2 := by
        intro hj2
        have := hnmem j hj2
        rw [hidx] at this
        have hpn' : p.1 = gn := by injection this
        rw [← hfq] at hqn
        exact hqn hpn'
      simp only
      rw [if_neg hjm]
      exact hidx
  · intro j g hj
    simp only at hj
    by_cases hjm : j ∈ pn.2
    · rw [if_pos hjm] at hj
      have hg : g = gc := by injection hj with h; exact h.symm
      refine ⟨(pc.1, pc.2 ++ pn.2), ?_, by simpa using hpc1.trans hg.symm, by simp [hjm]⟩
      rw [List.mem_filter]
      constructor
      · have : (if pc.1 = gc then (pc.1, pc.2 ++ pn.2) else pc) = (pc.1, pc.2 ++ pn.2) := by
          rw [if_pos hpc1]
        rw [← this]
        exact List.mem_map_of_mem _ hpc
      · simp only [decide_eq_true_eq]
        show pc.1 ≠ gn
        rw [hpc1]
        exact hcne
    · rw [if_neg hjm] at hj
      obtain ⟨p, hp, hp1, hpj⟩ := inv.idxMem j g hj
      have hpgn : p.1 ≠ gn := by
        intro he
        have : p = pn := List.inj_on_of_nodup_map inv.nodupIds hp hpn (he.trans hpn1.symm)
        rw [this] at hpj
        exact hjm hpj
      by_cases hc : p.1 = gc
      · refine ⟨(p.1, p.2 ++ pn.2), ?_, hp1, by simp [hpj]⟩
        rw [List.mem_filter]
        constructor
        · have : (if p.1 = gc then (p.1, p.2 ++ pn.2) else p) = (p.1, p.2 ++ pn.2) := by
            rw [if_pos hc]
          rw [← this]
          exact List.mem_map_of_mem _ hp
        · simpa using hpgn
      · refine ⟨p, ?_, hp1, hpj⟩
        rw [List.mem_filter]
        constructor
        · have : (if p.1 = gc then (p.1, p.2 ++ pn.2) else p) = p := by
            rw [if_neg hc]
          rw [← this]
          exact List.mem_map_of_mem _ hp
        · simpa using hpgn
  · intro q hq
    obtain ⟨p, hp, hfq, _⟩ := hmemof q hq
    by_cases hc : p.1 = gc
    · rw [if_pos hc] at hfq
      rw [← hfq]
      show (p.2 ++ pn.2).Nodup
      rw [List.nodup_append]
      refine ⟨inv.nodupMem p hp, inv.nodupMem pn hpn, ?_⟩
      intro a ha hb
      have h1 := inv.memIdx p hp a ha
      have h2 := hnmem a hb
      rw [h1] at h2
      have : p.1 = gn := by injection h2
      rw [hc] at this
      exact hcne this
    · rw [if_neg hc] at hfq
      rw [← hfq]
      exact inv.nodupMem p hp
  · intro q hq j hj
    obtain ⟨p, hp, hfq, _⟩ := hmemof q hq
    by_cases hc : p.1 = gc
    · rw [if_pos hc] at hfq
      rw [← hfq] at hj
      rcases List.mem_append.mp hj with hj1 | hj1
      · exact inv.memLt p hp j hj1
      · exact inv.memLt pn hpn j hj1
    · rw [if_neg hc] at hfq
      rw [← hfq] at hj
      exact inv.memLt p hp j hj

theorem GInv.updateNeighbourInv {bound : Nat} {s : GroupState} (inv : GInv bound s)
    (curr nb : Nat) (hnb : nb < bound) :
    GInv bound (updateNeighbour s curr nb) ∧
    (∀ j : Nat, (s.idx j).isSome → ((updateNeighbour s curr nb).idx j).isSome) ∧
    (updateNeighbour s curr nb).nid = s.nid := by
  unfold updateNeighbour
  cases hcu : s.idx curr with
  | none => exact ⟨inv, fun j h => h, rfl⟩
  | some gc =>
    simp only
    cases hnbx : s.idx nb with
    | none =>
      obtain ⟨pc, hpc, hpc1, _⟩ := inv.idxMem curr gc hcu
      refine ⟨inv.setGroup_fresh ⟨pc, hpc, hpc1⟩ hnbx hnb, ?_, rfl⟩
      intro j h
      rw [setGroup_idx]
      by_cases hji : j = nb
      · simp [hji]
      · rw [if_neg hji]
        exact h
    | some gn =>
      simp only
      by_cases hce : gc = gn
      · rw [if_pos hce]
        exact ⟨inv, fun j h => h, rfl⟩
      · rw [if_neg hce]
        obtain ⟨pc, hpc, hpc1, _⟩ := inv.idxMem curr gc hcu
        obtain ⟨pn, hpn, hpn1, _⟩ := inv.idxMem nb gn hnbx
        have hm : membersOf s gn = pn.2 := by
          rw [← hpn1]
          exact membersOf_eq inv.nodupIds hpn
        obtain ⟨h1, h2, h3⟩ := foldl_setGroup_closed gc (membersOf s gn) s
        rw [hm] at h1 h2 h3
        refine ⟨?_, ?_, ?_⟩
        · simp only [hm, h1, h2, h3]
          exact inv.merged hce hpc hpc1 hpn hpn1
        · intro j h
          simp only [hm, h2]
          by_cases hjm : j ∈ pn.2
          · simp [hjm]
          · rw [if_neg hjm]
            exact h
        · simp only [hm, h3]


theorem rightNeighbourLt (size i : Nat) (hi : i < size * size) (hx : i % size < size - 1) :
    getIndex (i % size + 1) (i / size) size < size * size := by
  unfold getIndex
  have hy : i / size < size := Nat.div_lt_of_lt_mul hi
  have h2 : (i / size + 1) * size ≤ size * size :=
    Nat.mul_le_mul_right size (Nat.succ_le_of_lt hy)
  calc i / size * size + (i % size + 1) < i / size * size + size := by omega
    _ = (i / size + 1) * size := by ring
    _ ≤ size * size := h2

theorem downNeighbourLt (size i : Nat) (hi : i < size * size) (hy : i / size < size - 1) :
    getIndex (i % size) (i / size + 1) size < size * size := by
  unfold getIndex
  have hsz : 0 < size := by
    rcases Nat.eq_zero_or_pos size with h | h
    · rw [h] at hi
      omega
    · exact h
  have hx : i % size < size := Nat.mod_lt _ hsz
  have h2 : (i / size + 2) * size ≤ size * size := by
    refine Nat.mul_le_mul_right size ?_
    omega
  calc (i / size + 1) * size + i % size < (i / size + 1) * size + size := by omega
    _ = (i / size + 2) * size := by ring
    _ ≤ size * size := h2

/-- The group-creation sub-step of the region builder's loop body. -/
def mkOwn (s : GroupState) (i : Nat) : GroupState :=
  match s.idx i with
  | some _ => s
  | none => setGroup { s with gs := s.gs ++ [(s.nid, [])], nid := s.nid + 1 } i s.nid

/-- The right-neighbour union sub-step of the loop body. -/
def condRight (size : Nat) (vw : List Bool) (s1 : GroupState) (i : Nat) : GroupState :=
  if i % size < size - 1 && !(vw.getD (getIndex (i % size) (i / size) (size - 1)) false) then
    updateNeighbour s1 i (getIndex (i % size + 1) (i / size) size)
  else s1

/-- The down-neighbour union sub-step of the loop body. -/
def condDown (size : Nat) (hw : List Bool) (s2 : GroupState) (i : Nat) : GroupState :=
  if i / size < size - 1 && !(hw.getD (getIndex (i % size) (i / size) size) false) then
    updateNeighbour s2 i (getIndex (i % size) (i / size + 1) size)
  else s2

theorem makeGroupsStep_eq (size : Nat) (hw vw : List Bool) (s : GroupState) (i : Nat) :
    makeGroupsStep size hw vw s i = condDown size hw (condRight size vw (mkOwn s i) i) i := rfl

theorem mkOwn_inv {bound : Nat} {s : GroupState} (inv : GInv bound s) {i : Nat}
    (hi : i < bound) :
    GInv bound (mkOwn s i) ∧
    (∀ j : Nat, (s.idx j).isSome → ((mkOwn s i).idx j).isSome) ∧
    ((mkOwn s i).idx i).isSome := by
  unfold mkOwn
  cases hx : s.idx i with
  | some g =>
    exact ⟨inv, fun j h => h, by rw [hx]; rfl⟩
  | none =>
    have hinv' : GInv bound { s with gs := s.gs ++ [(s.nid, [])], nid := s.nid + 1 } :=
      inv.addEmptyGroup
    have hnew : ((s.nid, ([] : List Nat)) ∈ s.gs ++ [(s.nid, [])]) := by simp
    refine ⟨hinv'.setGroup_fresh ⟨(s.nid, []), hnew, rfl⟩ hx hi, ?_, ?_⟩
    · intro j h
      show ((setGroup { s with gs := s.gs ++ [(s.nid, [])], nid := s.nid + 1 } i s.nid).idx j).isSome
      rw [setGroup_idx]
      by_cases hji : j = i
      · rw [if_pos hji]
        rfl
      · rw [if_neg hji]
        exact h
    · show ((setGroup { s with gs := s.gs ++ [(s.nid, [])], nid := s.nid + 1 } i s.nid).idx i).isSome
      rw [setGroup_idx, if_pos rfl]
      rfl

theorem condRight_inv {size : Nat} {vw : List Bool} {s1 : GroupState}
    (inv : GInv (size * size) s1) {i : Nat} (hi : i < size * size) :
    GInv (size * size) (condRight size vw s1 i) ∧
    (∀ j : Nat, (s1.idx j).isSome → ((condRight size vw s1 i).idx j).isSome) := by
  unfold condRight
  by_cases hc : (i % size < size - 1
      && !(vw.getD (getIndex (i % size) (i / size) (size - 1)) false)) = true
  · rw [if_pos hc]
    rw [Bool.and_eq_true] at hc
    have hxlt : i % size < size - 1 := of_decide_eq_true hc.1
    obtain ⟨ha, hb, _⟩ := inv.updateNeighbourInv i (getIndex (i % size + 1) (i / size) size)
      (rightNeighbourLt size i hi hxlt)
    exact ⟨ha, hb⟩
  · rw [if_neg hc]
    exact ⟨inv, fun j h => h⟩

theorem condDown_inv {size : Nat} {hw : List Bool} {s2 : GroupState}
    (inv : GInv (size * size) s2) {i : Nat} (hi : i < size * size) :
    GInv (size * size) (condDown size hw s2 i) ∧
    (∀ j : Nat, (s2.idx j).isSome → ((condDown size hw s2 i).idx j).isSome) := by
  unfold condDown
  by_cases hc : (i / size < size - 1
      && !(hw.getD (getIndex (i % size) (i / size) size) false)) = true
  · rw [if_pos hc]
    rw [Bool.and_eq_true] at hc
    have hylt : i / size < size - 1 := of_decide_eq_true hc.1
    obtain ⟨ha, hb, _⟩ := inv.updateNeighbourInv i (getIndex (i % size) (i / size + 1) size)
      (downNeighbourLt size i hi hylt)
    exact ⟨ha, hb⟩
  · rw [if_neg hc]
    exact ⟨inv, fun j h => h⟩

theorem GInv.stepCellInv {size : Nat} {hw vw : List Bool} {s : GroupState}
    (inv : GInv (size * size) s) {i : Nat} (hi : i < size * size) :
    GInv (size * size) (makeGroupsStep size hw vw s i) ∧
    (∀ j : Nat, (s.idx j).isSome → ((makeGroupsStep size hw vw s i).idx j).isSome) ∧
    ((makeGroupsStep size hw vw s i).idx i).isSome := by
  rw [makeGroupsStep_eq]
  obtain ⟨h1, h2, h3⟩ := mkOwn_inv inv hi
  obtain ⟨h4, h5⟩ := condRight_inv h1 hi
  obtain ⟨h6, h7⟩ := condDown_inv h4 hi
  exact ⟨h6, fun j h => h7 j (h5 j (h2 j h)), h7 i (h5 i h3)⟩

theorem foldl_makeGroupsStep_inv (size : Nat) (hw vw : List Bool) :
    ∀ k, k ≤ size * size →
      GInv (size * size)
        ((List.range k).foldl (makeGroupsStep size hw vw) ⟨[], fun _ => none, 0⟩) ∧
      ∀ j, j < k →
        (((List.range k).foldl (makeGroupsStep size hw vw)
            ⟨[], fun _ => none, 0⟩).idx j).isSome := by
  intro k
  induction k with
  | zero =>
    intro _
    rw [List.range_zero, List.foldl_nil]
    refine ⟨⟨List.nodup_nil, ?_, ?_, ?_, ?_, ?_⟩, ?_⟩
    · intro p hp
      exact absurd hp (List.not_mem_nil p)
    · intro p hp
      exact absurd hp (List.not_mem_nil p)
    · intro j g hj
      exact Option.noConfusion hj
    · intro p hp
      exact absurd hp (List.not_mem_nil p)
    · intro p hp
      exact absurd hp (List.not_mem_nil p)
    · intro j hj
      omega
  | succ k ih =>
    intro hk
    obtain ⟨h1, h2⟩ := ih (by omega)
    rw [List.range_succ, List.foldl_append, List.foldl_cons, List.foldl_nil]
    obtain ⟨g1, g2, g3⟩ := h1.stepCellInv (show k < size * size by omega)
    refine ⟨g1, ?_⟩
    intro j hj
    by_cases hjk : j = k
    · rw [hjk]
      exact g3
    · exact g2 j (h2 j (by omega))

theorem count_one_of_owner (f : Nat → Option Nat) (i : Nat) :
    ∀ gs : List (Nat × List Nat),
      (gs.map Prod.fst).Nodup →
      (∀ q ∈ gs, ∀ j ∈ q.2, f j = some q.1) →
      (∀ q ∈ gs, q.2.Nodup) →
      ∀ p ∈ gs, i ∈ p.2 →
      (gs.map Prod.snd).flatten.count i = 1 := by
  intro gs
  induction gs with
  | nil =>
    intro _ _ _ p hp
    exact absurd hp (List.not_mem_nil p)
  | cons a gs ih =>
    intro hn hidx hmem p hp hpi
    rw [List.map_cons, List.nodup_cons] at hn
    rw [List.map_cons, List.flatten_cons, List.count_append]
    rcases List.mem_cons.mp hp with rfl | hptl
    · have h1 : p.2.count i = 1 :=
        List.count_eq_one_of_mem (hmem p (List.mem_cons_self p gs)) hpi
      have h2 : (gs.map Prod.snd).flatten.count i = 0 := by
        rw [List.count_eq_zero]
        intro hmem'
        obtain ⟨l, hl, hil⟩ := List.mem_flatten.mp hmem'
        obtain ⟨q, hq, rfl⟩ := List.mem_map.mp hl
        have hq1 := hidx q (List.mem_cons_of_mem p hq) i hil
        have hp2 := hidx p (List.mem_cons_self p gs) i hpi
        rw [hq1] at hp2
        have heq : q.1 = p.1 := by
          injection hp2
        have hmm : q.1 ∈ gs.map Prod.fst := List.mem_map_of_mem Prod.fst hq
        rw [heq] at hmm
        exact hn.1 hmm
      omega
    · have h1 : a.2.count i = 0 := by
        rw [List.count_eq_zero]
        intro hia
        have ha2 := hidx a (List.mem_cons_self a gs) i hia
        have hp3 := hidx p (List.mem_cons_of_mem a hptl) i hpi
        rw [ha2] at hp3
        have heq : a.1 = p.1 := by
          injection hp3
        have hmm : p.1 ∈ gs.map Prod.fst := List.mem_map_of_mem Prod.fst hptl
        rw [← heq] at hmm
        exact hn.1 hmm
      have h2 : (gs.map Prod.snd).flatten.count i = 1 :=
        ih hn.2 (fun q hq => hidx q (List.mem_cons_of_mem a hq))
          (fun q hq => hmem q (List.mem_cons_of_mem a hq)) p hptl hpi
      omega

theorem findIdx_entry {g : Nat} :
    ∀ gs : List (Nat × List Nat), (gs.map Prod.fst).Nodup →
      ∀ p ∈ gs, p.1 = g →
      gs[gs.findIdx (fun q => decide (some q.1 = some g))]? = some p := by
  intro gs
  induction gs with
  | nil =>
    intro _ p hp
    exact absurd hp (List.not_mem_nil p)
  | cons a gs ih =>
    intro hn p hp hp1
    rw [List.map_cons, List.nodup_cons] at hn
    rw [List.findIdx_cons]
    by_cases ha : a.1 = g
    · have hfa : decide (some a.1 = some g) = true := by
        simp [ha]
      have hpa : p = a := by
        rcases List.mem_cons.mp hp with rfl | hptl
        · rfl
        · exfalso
          have hmm : p.1 ∈ gs.map Prod.fst := List.mem_map_of_mem Prod.fst hptl
          rw [hp1, ← ha] at hmm
          exact hn.1 hmm
      rw [hfa, cond_true, hpa]
      exact List.getElem?_cons_zero
    · have hfa : decide (some a.1 = some g) = false := by
        simp [ha]
      have hptl : p ∈ gs := by
        rcases List.mem_cons.mp hp with rfl | h
        · exact absurd hp1 ha
        · exact h
      rw [hfa, cond_false, List.getElem?_cons_succ]
      exact ih hn.2 p hptl hp1

/-- C7: for every grid size and wall layout, the groups list returned by
`makeGroups` partitions the `size * size` cell indices — every in-range cell
index occurs in exactly one group, and all group members are in range — and
the returned `groupIndices` list maps every cell index to the position within
the groups list of the group containing it. -/
theorem C7_makeGroups_partition (size : Nat) (hw vw : List Bool) (i : Nat)
    (hi : i < size * size) :
    (makeGroups size hw vw).1.flatten.count i = 1 ∧
    (∀ g ∈ (makeGroups size hw vw).1, ∀ j ∈ g, j < size * size) ∧
    ∃ k g, (makeGroups size hw vw).2[i]? = some k ∧
      (makeGroups size hw vw).1[k]? = some g ∧ i ∈ g := by
  obtain ⟨inv, hall⟩ := foldl_makeGroupsStep_inv size hw vw (size * size) (le_refl _)
  have hmk : makeGroups size hw vw
      = (((List.range (size * size)).foldl (makeGroupsStep size hw vw)
            ⟨[], fun _ => none, 0⟩).gs.map Prod.snd,
         (List.range (size * size)).map (fun j =>
           ((List.range (size * size)).foldl (makeGroupsStep size hw vw)
              ⟨[], fun _ => none, 0⟩).gs.findIdx (fun p => decide (some p.1
                = ((List.range (size * size)).foldl (makeGroupsStep size hw vw)
                    ⟨[], fun _ => none, 0⟩).idx j)))) := rfl
  obtain ⟨g0, hg0⟩ := Option.isSome_iff_exists.mp (hall i hi)
  obtain ⟨p, hp, hp1, hpi⟩ := inv.idxMem i g0 hg0
  rw [hmk]
  refine ⟨?_, ?_, ?_⟩
  · exact count_one_of_owner _ i _ inv.nodupIds inv.memIdx inv.nodupMem p hp hpi
  · intro g hg j hj
    obtain ⟨q, hq, rfl⟩ := List.mem_map.mp hg
    exact inv.memLt q hq j hj
  · refine ⟨((List.range (size * size)).foldl (makeGroupsStep size hw vw)
        ⟨[], fun _ => none, 0⟩).gs.findIdx (fun p => decide (some p.1 = some g0)),
      p.2, ?_, ?_, hpi⟩
    · rw [List.getElem?_map, List.getElem?_range hi]
      simp [hg0]
    · rw [List.getElem?_map, findIdx_entry _ inv.nodupIds p hp hp1]
      rfl

theorem C7_makeGroups_partition_witness :
    0 < 2 * 2 ∧
    ((makeGroups 2 [false, false] [false, false]).1.flatten.count 0 = 1 ∧
     (∀ g ∈ (makeGroups 2 [false, false] [false, false]).1, ∀ j ∈ g, j < 2 * 2) ∧
     ∃ k g, (makeGroups 2 [false, false] [false, false]).2[0]? = some k ∧
       (makeGroups 2 [false, false] [false, false]).1[k]? = some g ∧ 0 ∈ g) :=
  ⟨by decide, C7_makeGroups_partition 2 [false, false] [false, false] 0 (by decide)⟩
